import Mathlib

/-!
Verification development for the apk-forge repository.

The development shallowly embeds the TypeScript sources:
  * `src/lib/axml-parser.ts`   — Android binary-XML (AXML) parser and rewriter,
  * the APK signing module (`createManifestMF`, `createCertSF`, …),
  * the APK processor (`processApk`, `processApksBundle`, …).

Modelling conventions:
  * JavaScript byte buffers (`Uint8Array`/`DataView`, little endian) are
    `List Nat` with every element a byte value; out-of-range `DataView` reads
    throw in JS and are modelled with `Option` (`none` = exception).
  * JavaScript strings are `List Nat` of UTF-16 code units (`Units`); all
    string literals appearing in the sources are ASCII, where the two notions
    of string coincide exactly.
  * `TextEncoder`/`TextDecoder` (platform collaborators) are modelled by
    `utf8EncodeUnits`/`utf8DecodeUnits`, which agree with them on well-formed
    text.
  * External collaborators (WebCrypto SHA-256/Base64, JSZip byte-level codec,
    PKI.js) are parameters of the embedded functions, as the specification
    treats them as external interfaces.
-/

namespace ApkForge

/-- JS byte buffers: a list of byte values. -/
abbrev Bytes := List Nat

/-- JS strings: a list of UTF-16 code units. -/
abbrev Units := List Nat

/-- Embed an ASCII/BMP Lean string literal as a JS string (code-unit list). -/
def u (s : String) : Units := s.data.map Char.toNat

/-- Read one byte of a buffer (in-range by construction at every use). -/
def getByte (d : Bytes) (i : Nat) : Nat := d.getD i 0

/-- `DataView.getUint8`: `none` models the JS `RangeError` on an
out-of-range read. -/
def readU8? (d : Bytes) (i : Nat) : Option Nat :=
  if i + 1 ≤ d.length then some (getByte d i) else none

/-- `DataView.getUint16(·, true)` (little endian). -/
def readU16? (d : Bytes) (i : Nat) : Option Nat :=
  if i + 2 ≤ d.length then some (getByte d i + 256 * getByte d (i+1)) else none

/-- The little-endian 32-bit value at `i` (unchecked). -/
def readU32val (d : Bytes) (i : Nat) : Nat :=
  getByte d i + 256 * getByte d (i+1) + 65536 * getByte d (i+2) +
    16777216 * getByte d (i+3)

/-- `DataView.getUint32(·, true)` (little endian). -/
def readU32? (d : Bytes) (i : Nat) : Option Nat :=
  if i + 4 ≤ d.length then some (readU32val d i) else none

/-- Two's-complement reinterpretation of a 32-bit word (JS `getInt32`). -/
def toInt32 (x : Nat) : Int := if x < 2147483648 then (x : Int) else (x : Int) - 4294967296

/-- `DataView.getInt32(·, true)`. -/
def readI32? (d : Bytes) (i : Nat) : Option Int := (readU32? d i).map toInt32

/-- JS `x >> 24` on a value read with `getUint32`: `ToInt32` then an
arithmetic right shift, i.e. flooring division by `2^24`. -/
def jsShr24 (x : Nat) : Int := (toInt32 x).fdiv 16777216

/-- The little-endian bytes of a 16-bit value (JS `setUint16` masks with
`0xFFFF`). -/
def u16Bytes (v : Nat) : Bytes := [v % 256, v / 256 % 256]

/-- The little-endian bytes of a 32-bit value (JS `setUint32` applies
`>>> 0`, i.e. reduction mod `2^32`). -/
def u32Bytes (v : Nat) : Bytes :=
  [v % 256, v / 256 % 256, v / 65536 % 256, v / 16777216 % 256]

/-- The little-endian two's-complement bytes of a 32-bit signed value
(JS `setInt32`). -/
def i32Bytes (v : Int) : Bytes := u32Bytes (v.emod 4294967296).toNat

/-- Overwrite one byte in place (`List.set`; every use is in range). -/
def setByte (d : Bytes) (i v : Nat) : Bytes := d.set i v

/-- `DataView.setUint16(i, v, true)` performed in place on a buffer. -/
def write16 (d : Bytes) (i v : Nat) : Bytes :=
  (d.set i (v % 256)).set (i+1) (v / 256 % 256)

/-- `DataView.setUint32(i, v, true)` performed in place on a buffer. -/
def write32 (d : Bytes) (i v : Nat) : Bytes :=
  (((d.set i (v % 256)).set (i+1) (v / 256 % 256)).set (i+2) (v / 65536 % 256)).set
    (i+3) (v / 16777216 % 256)

/-- `DataView.setInt32(i, v, true)` performed in place on a buffer. -/
def writeI32 (d : Bytes) (i : Nat) (v : Int) : Bytes :=
  write32 d i (v.emod 4294967296).toNat

/-- `new Uint8Array(buffer, off, len)`: throws when the range is out of
bounds, hence `Option`. -/
def readBytesRange? (d : Bytes) (i n : Nat) : Option Bytes :=
  if i + n ≤ d.length then some ((d.drop i).take n) else none

/-- A run of `n` consecutive `getUint16` reads (UTF-16 string payload). -/
def readUnits? (d : Bytes) (i n : Nat) : Option Units :=
  if i + 2 * n ≤ d.length then
    some ((List.range n).map fun j => getByte d (i + 2*j) + 256 * getByte d (i + 2*j + 1))
  else none

/-- `TextDecoder('utf-8')` modelled on code-unit output: decodes UTF-8 bytes
to UTF-16 code units (supplementary planes become surrogate pairs); malformed
input degrades to U+FFFD as the platform decoder does.  Agrees with the
platform decoder on well-formed input, which is the only input the repository
feeds it. -/
def utf8DecodeUnits : Bytes → Units
  | [] => []
  | b :: rest =>
    if b < 128 then b :: utf8DecodeUnits rest
    else if b < 194 then 65533 :: utf8DecodeUnits rest
    else if b < 224 then
      match rest with
      | c :: r => ((b % 32) * 64 + c % 64) :: utf8DecodeUnits r
      | [] => [65533]
    else if b < 240 then
      match rest with
      | c :: c2 :: r => ((b % 16) * 4096 + (c % 64) * 64 + c2 % 64) :: utf8DecodeUnits r
      | _ => [65533]
    else
      match rest with
      | c :: c2 :: c3 :: r =>
        let cp := (b % 8) * 262144 + (c % 64) * 4096 + (c2 % 64) * 64 + c3 % 64
        if cp < 65536 then cp :: utf8DecodeUnits r
        else (55296 + (cp - 65536) / 1024) :: (56320 + (cp - 65536) % 1024) ::
             utf8DecodeUnits r
      | _ => [65533]

/-- `TextEncoder` modelled on code units: encodes UTF-16 code units to UTF-8
bytes, turning surrogate pairs into 4-byte sequences and lone surrogates into
U+FFFD, as the platform encoder does. -/
def utf8EncodeUnits : Units → Bytes
  | [] => []
  | c :: rest =>
    if c < 128 then c :: utf8EncodeUnits rest
    else if c < 2048 then (192 + c / 64) :: (128 + c % 64) :: utf8EncodeUnits rest
    else if 55296 ≤ c ∧ c < 56320 then
      match rest with
      | lo :: r =>
        if 56320 ≤ lo ∧ lo < 57344 then
          let cp := 65536 + (c - 55296) * 1024 + (lo - 56320)
          (240 + cp / 262144) :: (128 + cp / 4096 % 64) :: (128 + cp / 64 % 64) ::
            (128 + cp % 64) :: utf8EncodeUnits r
        else 239 :: 191 :: 189 :: utf8EncodeUnits (lo :: r)
      | [] => [239, 191, 189]
    else if 56320 ≤ c ∧ c < 57344 then 239 :: 191 :: 189 :: utf8EncodeUnits rest
    else (224 + c / 4096) :: (128 + c / 64 % 64) :: (128 + c % 64) :: utf8EncodeUnits rest

/-! ### Chunk-type and attribute-type constants of `axml-parser.ts` -/

def CHUNK_AXML_FILE : Nat := 0x00080003
def CHUNK_STRING_POOL : Nat := 0x001C0001
def CHUNK_RESOURCE_IDS : Nat := 0x00080180
def CHUNK_XML_START_NAMESPACE : Nat := 0x00100100
def CHUNK_XML_END_NAMESPACE : Nat := 0x00100101
def CHUNK_XML_START_ELEMENT : Nat := 0x00100102
def CHUNK_XML_END_ELEMENT : Nat := 0x00100103
def CHUNK_XML_CDATA : Nat := 0x00100104

def TYPE_INT_BOOLEAN : Int := 0x12

def ANDROID_NS : Units := u "http://schemas.android.com/apk/res/android"
def ATTR_DEBUGGABLE : Nat := 0x0101000f

/-! ### Data model (`AXMLAttribute`, `AXMLElement`, `ParsedAXML`) -/

/-- `AXMLAttribute` of `axml-parser.ts`: fields read with `getInt32` are
`Int`; `type` is the JS signed result of `readUint32() >> 24`. -/
structure AXMLAttribute where
  namespaceUri : Int
  name : Nat
  valueString : Int
  type : Int
  data : Int
deriving Repr, DecidableEq

/-- `AXMLElement` of `axml-parser.ts`; the optional fields default as the
parser leaves them for non-start-element chunks. -/
structure AXMLElement where
  chunkType : Nat
  lineNumber : Nat
  comment : Nat
  namespaceUri : Int
  name : Nat
  attributeStart : Nat := 0
  attributeSize : Nat := 0
  attributeCount : Nat := 0
  idIndex : Nat := 0
  classIndex : Nat := 0
  styleIndex : Nat := 0
  attributes : List AXMLAttribute := []
deriving Repr, DecidableEq

/-- `ParsedAXML` of `axml-parser.ts`. -/
structure ParsedAXML where
  strings : List Units
  resourceIds : List Nat
  elements : List AXMLElement
  rawData : Bytes
  stringPoolOffset : Nat := 0
  stringPoolSize : Nat := 0
  resourceIdsOffset : Nat := 0
  resourceIdsSize : Nat := 0
  elementsOffset : Nat := 0
deriving Repr, DecidableEq

/-! ### The parser (`AXMLParser.parse`) -/

/-- `readUtf8Length`: dual-byte variable length prefix; returns the length
and the reader position after it. -/
def readUtf8Length? (d : Bytes) (pos : Nat) : Option (Nat × Nat) := do
  let l ← readU8? d pos
  if 128 ≤ l then
    let l2 ← readU8? d (pos+1)
    pure ((l % 128) * 256 + l2, pos + 2)
  else
    pure (l, pos + 1)

/-- `readUtf16Length`: dual-word variable length prefix. -/
def readUtf16Length? (d : Bytes) (pos : Nat) : Option (Nat × Nat) := do
  let l ← readU16? d pos
  if 32768 ≤ l then
    let l2 ← readU16? d (pos+2)
    pure ((l % 32768) * 65536 + l2, pos + 4)
  else
    pure (l, pos + 2)

/-- The per-string body of `parseStringPool`'s read loop: decode the string
stored at `stringsDataStart + off`, returning it with the reader position
after it. -/
def readPoolString? (d : Bytes) (isUtf8 : Bool) (stringsDataStart off : Nat) :
    Option (Units × Nat) := do
  let p := stringsDataStart + off
  if isUtf8 then
    let (_charLen, p1) ← readUtf8Length? d p
    let (byteLen, p2) ← readUtf8Length? d p1
    let bytes ← readBytesRange? d p2 byteLen
    pure (utf8DecodeUnits bytes, p2 + byteLen)
  else
    let (len, p1) ← readUtf16Length? d p
    let units ← readUnits? d p1 len
    pure (units, p1 + 2 * len)

/-- The string-reading loop of `parseStringPool` over the offset table;
returns the strings and the final reader position. -/
def readPoolStrings? (d : Bytes) (isUtf8 : Bool) (stringsDataStart : Nat) :
    List Nat → Nat → Option (List Units × Nat)
  | [], pos => some ([], pos)
  | off :: offs, _ => do
    let (s, pos') ← readPoolString? d isUtf8 stringsDataStart off
    let (ss, posEnd) ← readPoolStrings? d isUtf8 stringsDataStart offs pos'
    pure (s :: ss, posEnd)

/-- A run of `n` consecutive `getUint32` reads starting at `pos`. -/
def readU32Run? (d : Bytes) (pos : Nat) : Nat → Option (List Nat)
  | 0 => some []
  | n+1 => do
    let v ← readU32? d pos
    let vs ← readU32Run? d (pos+4) n
    pure (v :: vs)

/-- `parseStringPool` (reader positioned just after the 8-byte chunk header
at `chunkStart`): returns the decoded strings and the final reader
position. -/
def parseStringPool? (d : Bytes) (chunkStart : Nat) : Option (List Units × Nat) := do
  let stringCount ← readU32? d (chunkStart + 8)
  let styleCount ← readU32? d (chunkStart + 12)
  let flags ← readU32? d (chunkStart + 16)
  let stringsStart ← readU32? d (chunkStart + 20)
  let _stylesStart ← readU32? d (chunkStart + 24)
  let isUtf8 := flags / 256 % 2 = 1
  let offsets ← readU32Run? d (chunkStart + 28) stringCount
  -- the style offsets are read (and discarded), moving the reader
  let _styleOffsets ← readU32Run? d (chunkStart + 28 + 4 * stringCount) styleCount
  let stringsDataStart := chunkStart + 8 + stringsStart
  readPoolStrings? d isUtf8 stringsDataStart offsets
    (chunkStart + 28 + 4 * stringCount + 4 * styleCount)

/-- `parseResourceIds`: `count = (chunkSize - 8) / 4` in JS arithmetic; the
loop `i < count` runs `⌈(chunkSize-8)/4⌉` times when the division is
fractional and not at all when `chunkSize ≤ 8`. -/
def parseResourceIds? (d : Bytes) (chunkStart chunkSize : Nat) :
    Option (List Nat × Nat) := do
  let count := if chunkSize ≤ 8 then 0 else (chunkSize - 8 + 3) / 4
  let ids ← readU32Run? d (chunkStart + 8) count
  pure (ids, chunkStart + 8 + 4 * count)

/-- The attribute-record read loop of `parseStartElement`. -/
def readAttrs? (d : Bytes) : Nat → Nat → Option (List AXMLAttribute)
  | _, 0 => some []
  | pos, n+1 => do
    let ns ← readI32? d pos
    let nm ← readU32? d (pos + 4)
    let vs ← readI32? d (pos + 8)
    let tw ← readU32? d (pos + 12)
    let dt ← readI32? d (pos + 16)
    let rest ← readAttrs? d (pos + 20) n
    pure (⟨ns, nm, vs, jsShr24 tw, dt⟩ :: rest)

/-- `parseStartElement` (chunk header already consumed): the element and the
reader position after its attribute records. -/
def parseStartElement? (d : Bytes) (pos : Nat) : Option (AXMLElement × Nat) := do
  let line ← readU32? d (pos + 8)
  let comment ← readU32? d (pos + 12)
  let ns ← readI32? d (pos + 16)
  let name ← readU32? d (pos + 20)
  let aStart ← readU16? d (pos + 24)
  let aSize ← readU16? d (pos + 26)
  let aCount ← readU16? d (pos + 28)
  let idI ← readU16? d (pos + 30)
  let clI ← readU16? d (pos + 32)
  let stI ← readU16? d (pos + 34)
  let attrs ← readAttrs? d (pos + 36) aCount
  pure (⟨CHUNK_XML_START_ELEMENT, line, comment, ns, name, aStart, aSize, aCount,
         idI, clI, stI, attrs⟩, pos + 36 + 20 * aCount)

/-- `parseNamespace` (start or end): the element and the reader position. -/
def parseNamespace? (d : Bytes) (chunkType pos : Nat) : Option (AXMLElement × Nat) := do
  let line ← readU32? d (pos + 8)
  let comment ← readU32? d (pos + 12)
  let prefixIdx ← readU32? d (pos + 16)
  let uri ← readU32? d (pos + 20)
  pure ({ chunkType := chunkType, lineNumber := line, comment := comment,
          namespaceUri := (prefixIdx : Int), name := uri }, pos + 24)

/-- `parseEndElement`. -/
def parseEndElement? (d : Bytes) (chunkType pos : Nat) : Option (AXMLElement × Nat) := do
  let line ← readU32? d (pos + 8)
  let comment ← readU32? d (pos + 12)
  let ns ← readI32? d (pos + 16)
  let name ← readU32? d (pos + 20)
  pure ({ chunkType := chunkType, lineNumber := line, comment := comment,
          namespaceUri := ns, name := name }, pos + 24)

/-- `parseCData`: reads three words, then skips the 8-byte typed value. -/
def parseCData? (d : Bytes) (pos : Nat) : Option (AXMLElement × Nat) := do
  let line ← readU32? d (pos + 8)
  let comment ← readU32? d (pos + 12)
  let dat ← readU32? d (pos + 16)
  pure ({ chunkType := CHUNK_XML_CDATA, lineNumber := line, comment := comment,
          namespaceUri := -1, name := dat }, pos + 28)

/-- The chunk-iteration loop of `AXMLParser.parse`.  After each sub-chunk the
reader is advanced to at least `chunkStart + chunkSize` (the source's
position fix-up keeps any overshoot).  Fuel bounds the iteration; a
non-advancing malformed chunk sequence (which would hang the JS loop) maps
to `none`. -/
def parseChunks? (d : Bytes) (fileSize : Nat) : Nat → Nat → ParsedAXML → Option ParsedAXML
  | 0, _, _ => none
  | fuel+1, pos, st =>
    if pos < fileSize then do
      let ty ← readU32? d pos
      let sz ← readU32? d (pos + 4)
      let (st', subEnd) ←
        if ty = CHUNK_STRING_POOL then do
          let (strs, e) ← parseStringPool? d pos
          pure ({ st with strings := st.strings ++ strs,
                          stringPoolOffset := pos, stringPoolSize := sz }, e)
        else if ty = CHUNK_RESOURCE_IDS then do
          let (ids, e) ← parseResourceIds? d pos sz
          pure ({ st with resourceIds := st.resourceIds ++ ids,
                          resourceIdsOffset := pos, resourceIdsSize := sz }, e)
        else if ty = CHUNK_XML_START_NAMESPACE ∨ ty = CHUNK_XML_END_NAMESPACE then do
          let (el, e) ← parseNamespace? d ty pos
          pure ({ st with elements := st.elements ++ [el],
                          elementsOffset := if st.elementsOffset = 0 then pos
                                            else st.elementsOffset }, e)
        else if ty = CHUNK_XML_START_ELEMENT then do
          let (el, e) ← parseStartElement? d pos
          pure ({ st with elements := st.elements ++ [el],
                          elementsOffset := if st.elementsOffset = 0 then pos
                                            else st.elementsOffset }, e)
        else if ty = CHUNK_XML_END_ELEMENT then do
          let (el, e) ← parseEndElement? d ty pos
          pure ({ st with elements := st.elements ++ [el] }, e)
        else if ty = CHUNK_XML_CDATA then do
          let (el, e) ← parseCData? d pos
          pure ({ st with elements := st.elements ++ [el] }, e)
        else
          pure (st, pos + sz)
      let next := if subEnd < pos + sz then pos + sz else subEnd
      parseChunks? d fileSize fuel next st'
    else some st

/-- `AXMLParser.parse`: `none` models every thrown exception
(`Invalid AXML magic`, out-of-range reads, a non-terminating malformed
chunk list). -/
def AXMLParser.parse (d : Bytes) : Option ParsedAXML := do
  let magic ← readU32? d 0
  if magic ≠ CHUNK_AXML_FILE then none
  else do
    let fileSize ← readU32? d 4
    parseChunks? d fileSize (fileSize + 1) 8
      { strings := [], resourceIds := [], elements := [], rawData := d }

/-! ### Fact extraction (`AXMLModifier.getManifestInfo`) -/

/-- `ApkManifestInfo` of `axml-parser.ts`. -/
structure ApkManifestInfo where
  packageName : Units := []
  versionCode : Int := 0
  versionName : Units := []
  minSdkVersion : Int := 0
  targetSdkVersion : Int := 0
  isDebuggable : Bool := false
  permissions : List Units := []
  applicationName : Units := []
deriving Repr, DecidableEq

/-- `this.parsed.strings[i] || ''` for a non-negative index: out-of-range
indexing yields `undefined`, and both `undefined` and the empty string are
falsy, so the expression is the string at `i` or the empty string. -/
def stringAtN (l : List Units) (i : Nat) : Units := l.getD i []

/-- `this.parsed.strings[i] || …` for a signed index (negative or
out-of-range indexing yields the falsy `undefined`); the fallback is handled
by `jsOr`. -/
def stringAtI (l : List Units) (i : Int) : Units :=
  if 0 ≤ i ∧ i < l.length then l.getD i.toNat [] else []

/-- JS `x || y` on strings: the empty string is falsy. -/
def jsOr (x y : Units) : Units := if x = [] then y else x

/-- JS `Number.prototype.toString` for integral values. -/
def numToString (v : Int) : Units := u (toString v)

/-- JS `String.prototype.indexOf` for a pattern string: the first occurrence
index. -/
def indexOfSub (hay pat : Units) : Option Nat :=
  (List.range (hay.length + 1)).find? (fun i => pat.isPrefixOf (hay.drop i))

/-- JS `String.prototype.replace(pat, rep)` with a *string* pattern: replaces
only the first occurrence of `pat`, wherever it occurs. -/
def jsReplaceFirst (hay pat rep : Units) : Units :=
  match indexOfSub hay pat with
  | some i => hay.take i ++ rep ++ hay.drop (i + pat.length)
  | none => hay

def permissionPrefix : Units := u "android.permission."

/-- The `manifest`-tag attribute loop body of `getManifestInfo`. -/
def applyManifestAttr (strings : List Units) (info : ApkManifestInfo)
    (a : AXMLAttribute) : ApkManifestInfo :=
  let attrName := stringAtN strings a.name
  if attrName = u "package" then
    { info with packageName := jsOr (stringAtI strings a.data) (numToString a.data) }
  else if attrName = u "versionCode" then { info with versionCode := a.data }
  else if attrName = u "versionName" then
    { info with versionName := jsOr (stringAtI strings a.valueString) (numToString a.data) }
  else info

/-- The `uses-sdk`-tag attribute loop body of `getManifestInfo`. -/
def applySdkAttr (strings : List Units) (info : ApkManifestInfo)
    (a : AXMLAttribute) : ApkManifestInfo :=
  let attrName := stringAtN strings a.name
  if attrName = u "minSdkVersion" then { info with minSdkVersion := a.data }
  else if attrName = u "targetSdkVersion" then { info with targetSdkVersion := a.data }
  else info

/-- The `application`-tag attribute loop body of `getManifestInfo`. -/
def applyApplicationAttr (strings : List Units) (info : ApkManifestInfo)
    (a : AXMLAttribute) : ApkManifestInfo :=
  let attrName := stringAtN strings a.name
  if attrName = u "debuggable" then { info with isDebuggable := a.data ≠ 0 }
  else if attrName = u "name" then
    { info with applicationName := stringAtI strings a.valueString }
  else info

/-- The `uses-permission`-tag attribute loop body of `getManifestInfo`:
a non-empty permission name is pushed after
`permission.replace('android.permission.', '')`. -/
def applyPermissionAttr (strings : List Units) (info : ApkManifestInfo)
    (a : AXMLAttribute) : ApkManifestInfo :=
  let attrName := stringAtN strings a.name
  if attrName = u "name" then
    let permission := stringAtI strings a.valueString
    if permission ≠ [] then
      { info with permissions :=
          info.permissions ++ [jsReplaceFirst permission permissionPrefix []] }
    else info
  else info

/-- The per-element body of `getManifestInfo`'s loop. -/
def getManifestInfoStep (strings : List Units) (info : ApkManifestInfo)
    (el : AXMLElement) : ApkManifestInfo :=
  if el.chunkType = CHUNK_XML_START_ELEMENT then
    let tagName := stringAtN strings el.name
    let info := if tagName = u "manifest" then
        el.attributes.foldl (applyManifestAttr strings) info else info
    let info := if tagName = u "uses-sdk" then
        el.attributes.foldl (applySdkAttr strings) info else info
    let info := if tagName = u "application" then
        el.attributes.foldl (applyApplicationAttr strings) info else info
    let info := if tagName = u "uses-permission" then
        el.attributes.foldl (applyPermissionAttr strings) info else info
    info
  else info

/-- `AXMLModifier.getManifestInfo`. -/
def getManifestInfo (p : ParsedAXML) : ApkManifestInfo :=
  p.elements.foldl (getManifestInfoStep p.strings) {}

/-! ### The rewriter (`makeDebuggable` and its helpers) -/

/-- `Array.prototype.indexOf` over the string table: first index or `-1`. -/
def indexOfUnits (l : List Units) (s : Units) : Int :=
  match l.findIdx? (· = s) with
  | some i => (i : Int)
  | none => -1

/-- The chunk-walk loop of `makeDebuggable`: starting at
`parsed.elementsOffset`, find the first start-element whose tag resolves to
`application` and return its chunk start and attribute count.  `none` models
a thrown out-of-range read; `some none` is the loop ending without an
`application` element (by running off the buffer or by a zero-size chunk). -/
def findAppChunk? (strings : List Units) (d : Bytes) :
    Nat → Nat → Option (Option (Nat × Nat))
  | 0, _ => none
  | fuel+1, pos =>
    if pos < d.length then do
      let ty ← readU32? d pos
      let sz ← readU32? d (pos + 4)
      if ty = CHUNK_XML_START_ELEMENT then do
        let _ns ← readI32? d (pos + 16)
        let nameIdx ← readU32? d (pos + 20)
        let _aStart ← readU16? d (pos + 24)
        let _aSize ← readU16? d (pos + 26)
        let aCount ← readU16? d (pos + 28)
        let _idI ← readU16? d (pos + 30)
        let _clI ← readU16? d (pos + 32)
        let _stI ← readU16? d (pos + 34)
        if stringAtN strings nameIdx = u "application" then
          pure (some (pos, aCount))
        else if sz = 0 then pure none
        else findAppChunk? strings d fuel (pos + sz)
      else if sz = 0 then pure none
      else findAppChunk? strings d fuel (pos + sz)
    else pure none

/-- The attribute loop of `makeDebuggable` inside the `application` element:
the record offset of the first attribute whose name resolves to
`debuggable`, scanning `n` records from `attrOff`. -/
def findDebugAttr? (strings : List Units) (d : Bytes) :
    Nat → Nat → Option (Option Nat)
  | _, 0 => some none
  | attrOff, n+1 => do
    let nameIdx ← readU32? d (attrOff + 4)
    if stringAtN strings nameIdx = u "debuggable" then pure (some attrOff)
    else findDebugAttr? strings d (attrOff + 20) n

/-- The template-search loop of `addDebuggableAttribute`: the record offset
of the first attribute whose (signed) type byte is `TYPE_INT_BOOLEAN`. -/
def findBoolTemplate? (d : Bytes) : Nat → Nat → Option (Option Nat)
  | _, 0 => some none
  | attrOff, n+1 => do
    let tw ← readU32? d (attrOff + 12)
    if jsShr24 tw = TYPE_INT_BOOLEAN then pure (some attrOff)
    else findBoolTemplate? d (attrOff + 20) n

/-- The dual-byte length prefix written by `writeStringPool` (the source
writes the *byte* length for both prefixes). -/
def encodedLenPrefix (n : Nat) : Bytes :=
  if 128 ≤ n then [n / 256 % 128 + 128, n % 256] else [n]

/-- The pool body of one string: two length prefixes, the UTF-8 bytes and a
NUL terminator. -/
def poolStringBytes (s : Units) : Bytes :=
  let encoded := utf8EncodeUnits s
  encodedLenPrefix encoded.length ++ encodedLenPrefix encoded.length ++ encoded ++ [0]

/-- Cumulative offsets of the pool string bodies. -/
def cumOffsets : List Nat → Nat → List Nat
  | [], _ => []
  | l :: ls, acc => acc :: cumOffsets ls (acc + l)

/-- `writeStringPool`: the serialized string-pool chunk (UTF-8 flag set,
no styles, 4-byte alignment padding; the pool is emitted at file offset 8,
a multiple of 4, so the source's writer-position alignment equals
chunk-relative alignment). -/
def writeStringPoolBytes (strings : List Units) : Bytes :=
  let bodies := strings.map poolStringBytes
  let data := bodies.flatten
  let count := strings.length
  let offsets := cumOffsets (bodies.map List.length) 0
  let dataEnd := 28 + 4 * count + data.length
  let pad := (4 - dataEnd % 4) % 4
  u32Bytes CHUNK_STRING_POOL ++ u32Bytes (dataEnd + pad) ++
    u32Bytes count ++ u32Bytes 0 ++ u32Bytes 256 ++ u32Bytes (20 + 4 * count) ++
    u32Bytes 0 ++ (offsets.map u32Bytes).flatten ++ data ++ List.replicate pad 0

/-- `writeResourceIds`: the serialized resource-id chunk. -/
def writeResourceIdsBytes (ids : List Nat) : Bytes :=
  u32Bytes CHUNK_RESOURCE_IDS ++ u32Bytes (8 + 4 * ids.length) ++ (ids.map u32Bytes).flatten

/-- The bytes of one emitted attribute record in `writeElements`: the type
word is rebuilt as `(attr.type << 24) | 0x08` (JS 32-bit semantics). -/
def attrRecordBytes (a : AXMLAttribute) : Bytes :=
  i32Bytes a.namespaceUri ++ u32Bytes a.name ++ i32Bytes a.valueString ++
    u32Bytes ((a.type.emod 256).toNat * 16777216 + 8) ++ i32Bytes a.data

/-- The serialized start-element chunk emitted by `writeElements`
(`attributeStart`/`attributeSize` forced to `0x14`, size recomputed). -/
def startElementBytes (el : AXMLElement) (attrs : List AXMLAttribute) : Bytes :=
  u32Bytes CHUNK_XML_START_ELEMENT ++ u32Bytes (36 + 20 * attrs.length) ++
    u32Bytes el.lineNumber ++ u32Bytes el.comment ++ i32Bytes el.namespaceUri ++
    u32Bytes el.name ++ u16Bytes 0x14 ++ u16Bytes 0x14 ++ u16Bytes attrs.length ++
    u16Bytes el.idIndex ++ u16Bytes el.classIndex ++ u16Bytes el.styleIndex ++
    (attrs.map attrRecordBytes).flatten

/-- The element-stream loop of `writeElements`: start-element chunks are
re-emitted (forcing `debuggable`'s data word to `-1`, and appending a new
`debuggable` attribute on a bare `application` element); every other chunk
is copied verbatim.  After a start-element, the source resumes at the end of
its attribute records (not at `chunkStart + chunkSize`). -/
def writeElementsBytes (oldStrings : List Units) (androidNsIdx : Int)
    (debuggableStrIdx : Nat) (d : Bytes) : Nat → Nat → Option Bytes
  | 0, _ => none
  | fuel+1, pos =>
    if pos < d.length then do
      let _ty ← readU32? d pos
      let sz ← readU32? d (pos + 4)
      if sz = 0 ∨ d.length < pos + sz then pure []
      else if _ty = CHUNK_XML_START_ELEMENT then do
        let (el, subEnd) ← parseStartElement? d pos
        let hasDebuggable :=
          el.attributes.any (fun a => stringAtN oldStrings a.name = u "debuggable")
        let attrs1 := el.attributes.map (fun a =>
          if stringAtN oldStrings a.name = u "debuggable" then { a with data := -1 } else a)
        let isApplication := stringAtN oldStrings el.name = u "application"
        let attrs2 := if isApplication ∧ ¬hasDebuggable then
            attrs1 ++ [⟨androidNsIdx, debuggableStrIdx, -1, TYPE_INT_BOOLEAN, -1⟩]
          else attrs1
        let rest ← writeElementsBytes oldStrings androidNsIdx debuggableStrIdx d fuel subEnd
        pure (startElementBytes el attrs2 ++ rest)
      else do
        let chunkData ← readBytesRange? d pos sz
        let rest ← writeElementsBytes oldStrings androidNsIdx debuggableStrIdx d fuel (pos + sz)
        pure (chunkData ++ rest)
    else pure []

/-- `rebuildWithDebuggable`: regenerate the whole file — header, string pool
(with `debuggable` appended when absent), resource-id table (with
`0x0101000f` appended when absent) and the rewritten element stream — and
patch the total size. -/
def rebuildWithDebuggable (p : ParsedAXML) : Option Bytes := do
  let needNewString := (p.strings.findIdx? (· = u "debuggable")).isNone
  let debuggableStrIdx :=
    match p.strings.findIdx? (· = u "debuggable") with
    | some i => i
    | none => p.strings.length
  let newStrings := if needNewString then p.strings ++ [u "debuggable"] else p.strings
  let newResourceIds :=
    if (p.resourceIds.findIdx? (· = ATTR_DEBUGGABLE)).isSome then p.resourceIds
    else p.resourceIds ++ [ATTR_DEBUGGABLE]
  let androidNsIdx := indexOfUnits newStrings ANDROID_NS
  let pool := writeStringPoolBytes newStrings
  let res := writeResourceIdsBytes newResourceIds
  let elems ← writeElementsBytes p.strings androidNsIdx debuggableStrIdx p.rawData
      (p.rawData.length + 1) p.elementsOffset
  let total := 8 + pool.length + res.length + elems.length
  pure (u32Bytes CHUNK_AXML_FILE ++ u32Bytes total ++ pool ++ res ++ elems)

/-- `addDebuggableAttribute`: when the `debuggable` string or its resource id
is missing, look for a boolean template attribute; with a template and an
existing `debuggable` string, insert one 20-byte attribute record in place
(updating file size, element chunk size and attribute count); otherwise fall
back to the full rebuild. -/
def addDebuggableAttribute (p : ParsedAXML) (d : Bytes)
    (applicationChunkStart currentAttrCount attrsOffset : Nat) : Option Bytes := do
  let debuggableStrIdx := indexOfUnits p.strings (u "debuggable")
  let androidNsIdx := indexOfUnits p.strings ANDROID_NS
  let debuggableResIdx : Int :=
    match p.resourceIds.findIdx? (· = ATTR_DEBUGGABLE) with
    | some i => (i : Int)
    | none => -1
  if debuggableStrIdx = -1 ∨ debuggableResIdx = -1 then do
    let tmpl ← findBoolTemplate? d attrsOffset currentAttrCount
    match tmpl with
    | some _tOff =>
      if debuggableStrIdx = -1 then rebuildWithDebuggable p
      else
        let insertPosition := attrsOffset + currentAttrCount * 20
        -- `Uint8Array.set` past the end throws; the guard models that.
        if insertPosition ≤ d.length then do
          let newAttr := i32Bytes androidNsIdx ++ u32Bytes debuggableStrIdx.toNat ++
            i32Bytes (-1) ++ u32Bytes 0x12000008 ++ i32Bytes (-1)
          let inserted := d.take insertPosition ++ newAttr ++ d.drop insertPosition
          let n1 := write32 inserted 4 inserted.length
          let oldChunkSize ← readU32? d (applicationChunkStart + 4)
          let n2 := write32 n1 (applicationChunkStart + 4) (oldChunkSize + 20)
          pure (write16 n2 (applicationChunkStart + 28) (currentAttrCount + 1))
        else none
    | none => rebuildWithDebuggable p
  else rebuildWithDebuggable p

/-- `AXMLModifier.makeDebuggable`: scan for the `application` element; with
an existing `debuggable` attribute overwrite its data word with `-1` in a
copy of the buffer; with none, delegate to `addDebuggableAttribute`; with no
`application` element return the (copied) buffer unchanged. -/
def makeDebuggable (p : ParsedAXML) : Option Bytes := do
  let d := p.rawData
  let r ← findAppChunk? p.strings d (d.length + 1) p.elementsOffset
  match r with
  | none => pure d
  | some (chunkStart, attrCount) => do
    let attrsOffset := chunkStart + 36
    let a ← findDebugAttr? p.strings d attrsOffset attrCount
    match a with
    | some attrOffset =>
      -- `view.setInt32(attrOffset + 16, -1)` throws when out of range.
      if attrOffset + 20 ≤ d.length then pure (writeI32 d (attrOffset + 16) (-1))
      else none
    | none => addDebuggableAttribute p d chunkStart attrCount attrsOffset

/-- `patchManifestBinary` of the processor module: the byte-scan fallback
patch.  Finds the little-endian attribute id `0x0101000f`, then a boolean
type marker within the next 20 bytes, and forces the following data word to
`0xFFFFFFFF`. -/
def patchManifestBinary (d : Bytes) : Bytes :=
  let idMatch := fun i => getByte d i = 0x0f ∧ getByte d (i+1) = 0 ∧
    getByte d (i+2) = 1 ∧ getByte d (i+3) = 1
  let markerAt := fun j => getByte d j = 0x12 ∧ getByte d (j+1) = 0 ∧
    getByte d (j+2) = 0 ∧ getByte d (j+3) = 8
  let innerFind := fun i =>
    (List.range' (i+4) (min (i+24) (d.length - 4) - (i+4))).find?
      (fun j => decide (markerAt j))
  match (List.range (d.length - 20)).find?
      (fun i => decide (idMatch i) && (innerFind i).isSome) with
  | some i =>
    match innerFind i with
    | some j => ((((d.set (j+4) 255).set (j+5) 255).set (j+6) 255).set (j+7) 255)
    | none => d
  | none => d

/-- `parseAndroidManifest`. -/
def parseAndroidManifest (d : Bytes) : Option (ApkManifestInfo × ParsedAXML) := do
  let parsed ← AXMLParser.parse d
  pure (getManifestInfo parsed, parsed)

/-! ### The JAR v1 signer (`apk-signer.ts` string functions)

SHA-256 with Base64 output (`sha256Base64`, a WebCrypto collaborator) is a
parameter `hash : Bytes → Units` of every signer function; `TextEncoder`
applications in the source become `utf8EncodeUnits`. -/

def CRLF : Units := [13, 10]

/-- The continuation loop of `wrapLine`, structurally recursive on a fuel
bound (each iteration consumes at least one character, so any fuel of at
least `remaining.length` computes the loop's full output). -/
def wrapRestAux : Nat → Units → Units
  | 0, _ => []
  | _, [] => []
  | fuel+1, c :: rest =>
    32 :: ((c :: rest).take 69 ++ CRLF ++ wrapRestAux fuel ((c :: rest).drop 69))

/-- The continuation loop of `wrapLine`: 69-character chunks, each preceded
by a single space. -/
def wrapRest (remaining : Units) : Units := wrapRestAux remaining.length remaining

/-- `wrapLine`: a line of at most 70 characters is emitted as is; longer
lines carry 70 characters and space-prefixed 69-character continuations. -/
def wrapLine (line : Units) : Units :=
  if line.length ≤ 70 then line ++ CRLF
  else line.take 70 ++ CRLF ++ wrapRest (line.drop 70)

/-- `formatManifestEntry`. -/
def formatManifestEntry (name hash : Units)
    (digestName : Units := u "SHA-256-Digest") : Units :=
  wrapLine (u "Name: " ++ name) ++ wrapLine (digestName ++ u ": " ++ hash) ++ CRLF

/-- The keys of a JS `Map` in insertion order. -/
def mapKeys (files : List (Units × Bytes)) : List Units := files.map Prod.fst

/-- `files.get(name)!` on a JS `Map` (keys are unique). -/
def mapGet (files : List (Units × Bytes)) (k : Units) : Bytes :=
  ((files.find? (fun p => p.1 = k)).map Prod.snd).getD []

/-- JS string comparison `a < b || a == b` on UTF-16 code units (the order
used by the default `Array.prototype.sort` comparator). -/
def luLe : Units → Units → Bool
  | [], _ => true
  | _ :: _, [] => false
  | a :: as, b :: bs => if a < b then true else if a = b then luLe as bs else false

/-- The propositional form of `luLe`. -/
def LuLe (a b : Units) : Prop := luLe a b = true

instance : DecidableRel LuLe := fun _ _ => inferInstanceAs (Decidable (_ = true))

/-- `Array.from(files.keys()).sort()`: a comparator-correct sort by
code-unit order.  Keys of a `Map` are distinct, so every correct sort
produces the same list; `insertionSort` stands for the engine's sort. -/
def sortedKeys (files : List (Units × Bytes)) : List Units :=
  List.insertionSort LuLe (mapKeys files)

def manifestHeader : Units :=
  u "Manifest-Version: 1.0" ++ CRLF ++ u "Created-By: 1.0 (APK Debugger)" ++
    CRLF ++ CRLF

/-- `createManifestMF`: fixed header, then — in sorted key order, skipping
`META-INF/`-prefixed names — one wrapped `Name`/`SHA-256-Digest` block per
entry, with `hash` applied to the entry bytes. -/
def createManifestMF (hash : Bytes → Units) (files : List (Units × Bytes)) : Units :=
  manifestHeader ++
    ((sortedKeys files).map (fun name =>
      if (u "META-INF/").isPrefixOf name then []
      else formatManifestEntry name (hash (mapGet files name)))).flatten

/-- `manifestMF.split('\r\n')`. -/
def splitCRLF : Units → List Units
  | [] => [[]]
  | 13 :: 10 :: rest => [] :: splitCRLF rest
  | c :: rest =>
    match splitCRLF rest with
    | l :: ls => (c :: l) :: ls
    | [] => [[c]]

/-- The per-line state machine of `createCertSF`'s reconstruction loop; the
state is `(currentEntry, currentName, sf)`. -/
def certSFStep (hash : Bytes → Units) (st : Units × Units × Units)
    (line : Units) : Units × Units × Units :=
  let (currentEntry, currentName, sf) := st
  if (u "Name: ").isPrefixOf line then (line ++ CRLF, line.drop 6, sf)
  else if (u " ").isPrefixOf line then (currentEntry ++ line ++ CRLF, currentName, sf)
  else if (u "SHA-256-Digest:").isPrefixOf line ∨ (u "SHA256-Digest:").isPrefixOf line then
    (currentEntry ++ line ++ CRLF, currentName, sf)
  else if line = [] ∧ currentName ≠ [] then
    let entry := currentEntry ++ CRLF
    let entryHash := hash (utf8EncodeUnits entry)
    ([], [], sf ++ formatManifestEntry currentName entryHash (u "SHA-256-Digest"))
  else st

/-- `createCertSF`: the signature-file header (with the digest of the whole
manifest), then one block per entry reconstructed from the manifest text.
The `files` argument of the source is unused by its body. -/
def createCertSF (hash : Bytes → Units) (manifestMF : Units)
    (_files : List (Units × Bytes)) : Units :=
  let manifestHash := hash (utf8EncodeUnits manifestMF)
  let sf0 := u "Signature-Version: 1.0" ++ CRLF ++
    u "SHA-256-Digest-Manifest: " ++ manifestHash ++ CRLF ++
    u "Created-By: 1.0 (APK Debugger)" ++ CRLF ++ CRLF
  ((splitCRLF manifestMF).foldl (certSFStep hash) ([], [], sf0)).2.2

/-- `makeManifestDebuggable`. -/
def makeManifestDebuggable (d : Bytes) : Option Bytes := do
  let parsed ← AXMLParser.parse d
  makeDebuggable parsed

/-- `signApk` (minus `createCertRSA`, whose PKI.js/WebCrypto body is the
external `rsa` collaborator). -/
def signApk (hash : Bytes → Units) (rsa : Units → Except Units Bytes)
    (files : List (Units × Bytes)) : Except Units (Units × Units × Bytes) := do
  let manifestMF := createManifestMF hash files
  let certSF := createCertSF hash manifestMF files
  let certRSA ← rsa certSF
  pure (manifestMF, certSF, certRSA)

/-! ### The archive model (the JSZip collaborator) and the processor

An archive is the `files` object of a JSZip instance: entries in insertion
(central-directory) order with unique names.  A thrown JS value is modelled
by its message string (`JsErr`). -/

abbrev JsErr := Units

instance {ε α : Type} [DecidableEq ε] [DecidableEq α] : DecidableEq (Except ε α) :=
  fun x y =>
    match x, y with
    | .ok a, .ok b => decidable_of_iff (a = b) (by simp)
    | .error a, .error b => decidable_of_iff (a = b) (by simp)
    | .ok _, .error _ => isFalse (by simp)
    | .error _, .ok _ => isFalse (by simp)

/-- One JSZip entry. -/
structure ZEntry where
  name : Units
  dir : Bool
  data : Bytes
deriving Repr, DecidableEq

abbrev Archive := List ZEntry

/-- `zip.file(name)`: the non-directory entry with that name, `none` for a
missing name or a folder. -/
def zipFileGet (z : Archive) (nm : Units) : Option ZEntry :=
  match z.find? (fun e => e.name = nm) with
  | some e => if e.dir then none else some e
  | none => none

/-- `zip.file(name, data)`: replace the entry with that name, or append a
new one (JSZip keys its `files` object by name). -/
def zipFileSet (z : Archive) (nm : Units) (d : Bytes) : Archive :=
  if (z.find? (fun e => e.name = nm)).isSome then
    z.map (fun e => if e.name = nm then ⟨nm, false, d⟩ else e)
  else z ++ [⟨nm, false, d⟩]

/-- `zip.remove(name)` for a file path. -/
def zipRemove (z : Archive) (nm : Units) : Archive := z.filter (fun e => ¬ e.name = nm)

/-- A nested archive entry of an `.apks` bundle: `content` is the result of
`JSZip.loadAsync` on the entry's bytes (an external decode that can
reject). -/
structure BundleEntry where
  name : Units
  dir : Bool
  content : Except JsErr Archive
deriving Repr, DecidableEq

abbrev Bundle := List BundleEntry

/-- ASCII `toLowerCase` (every name compared by the source is ASCII). -/
def lowerUnits (s : Units) : Units :=
  s.map (fun c => if 65 ≤ c ∧ c ≤ 90 then c + 32 else c)

/-- ASCII `toUpperCase`. -/
def upperUnits (s : Units) : Units :=
  s.map (fun c => if 97 ≤ c ∧ c ≤ 122 then c - 32 else c)

/-- JS `String.prototype.includes`. -/
def containsSub (hay pat : Units) : Bool := (indexOfSub hay pat).isSome

/-- JS `String.prototype.endsWith`. -/
def endsWithUnits (s suffix : Units) : Bool := suffix.isSuffixOf s

/-! #### The log-and-exception monad of the processor

`processApk` owns a mutable `logs` array and a caller-supplied `onLog`
callback; any JS value thrown (also by `onLog`) propagates.  `PM` threads
the `logs` array and an `Except` for thrown values. -/

inductive LogKind | info | success | warning | error
deriving Repr, DecidableEq

/-- A `ProcessingLog` entry (the `timestamp : Date` field, an external
clock reading, is not modelled). -/
structure LogEntry where
  type : LogKind
  message : Units
deriving Repr, DecidableEq

def PM (α : Type) := List LogEntry → Except JsErr α × List LogEntry

instance : Monad PM where
  pure a := fun s => (.ok a, s)
  bind m f := fun s =>
    match m s with
    | (.ok a, s') => f a s'
    | (.error e, s') => (.error e, s')

/-- `throw` of a JS value. -/
def pthrow {α : Type} (e : JsErr) : PM α := fun s => (.error e, s)

/-- `await` on an external result. -/
def pliftE {α : Type} (x : Except JsErr α) : PM α := fun s => (x, s)

/-- An `Option`-returning embedded function used where the source can throw
(the thrown message is irrelevant to every caller, which either catches or
fails). -/
def pliftO {α : Type} (x : Option α) (e : JsErr) : PM α :=
  fun s => match x with
  | some a => (.ok a, s)
  | none => (.error e, s)

/-- The `log` closure of `processApk`: push the entry, then invoke the
caller's `onLog` (whose exception, if any, propagates after the push). -/
def plog (onLog : LogEntry → Except JsErr Unit) (k : LogKind) (msg : Units) : PM Unit :=
  fun s =>
    let entry : LogEntry := ⟨k, msg⟩
    match onLog entry with
    | .ok _ => (.ok (), s ++ [entry])
    | .error e => (.error e, s ++ [entry])

/-- `try … catch …` inside the processor (the handler sees the logs pushed
so far). -/
def ptry {α : Type} (m : PM α) (handler : JsErr → PM α) : PM α :=
  fun s =>
    match m s with
    | (.ok a, s') => (.ok a, s')
    | (.error e, s') => handler e s'

/-! #### `processApksBundle` -/

/-- `path.toLowerCase().includes('base') || path.toLowerCase().includes('universal')
|| path === 'base.apk'`. -/
def isBaseName (nm : Units) : Bool :=
  containsSub (lowerUnits nm) (u "base") || containsSub (lowerUnits nm) (u "universal") ||
    decide (nm = u "base.apk")

/-- The `apkFiles` enumeration: non-directory nested entries with the `.apk`
suffix, in enumeration order, each with its `isBase` flag. -/
def enumerateApkFiles (bundleZip : Bundle) : List (BundleEntry × Bool) :=
  bundleZip.filterMap (fun f =>
    if endsWithUnits f.name (u ".apk") && !f.dir then some (f, isBaseName f.name)
    else none)

/-- The base selection: the first enumerated entry flagged `isBase`,
otherwise the first enumerated entry (`[]` stands for the unreachable empty
case, guarded by the `EmptyBundle` throw).  Names end in `.apk`, so the
JS falsiness check on an empty found name cannot fire. -/
def selectBasePath (apkFiles : List (BundleEntry × Bool)) : Units :=
  match apkFiles.find? (fun f => f.2) with
  | some f => f.1.name
  | none =>
    match apkFiles with
    | f :: _ => f.1.name
    | [] => []

/-- The per-split merge: insert each non-directory entry whose name does not
start with `META-INF/` and is absent from the working archive.  The source
checks all conditions against the pre-split archive (the async inserts
complete after the enumeration), which filtering before inserting models
exactly; names within one split are unique. -/
def mergeSplitEntries (mz : Archive) (split : Archive) : Archive :=
  (split.filter (fun e =>
    !e.dir && !((u "META-INF/").isPrefixOf e.name) && (zipFileGet mz e.name).isNone)).foldl
    (fun z e => zipFileSet z e.name e.data) mz

/-- One iteration of the split-merge loop of `processApksBundle`: skip the
base by name, otherwise load the split and merge its eligible entries. -/
def mergeStep (onLog : LogEntry → Except JsErr Unit) (bundleZip : Bundle)
    (baseApkPath : Units) (mz : Archive) (f : BundleEntry × Bool) : PM Archive :=
  if f.1.name = baseApkPath then pure mz
  else do
    plog onLog .info (u "Merging split: " ++ f.1.name)
    let splitZip ← pliftE
      (match bundleZip.find? (fun g => decide (g.name = f.1.name) && !g.dir) with
       | some g => g.content
       | none => Except.error (u "TypeError"))
    plog onLog .success (u "Merged " ++
      numToString (splitZip.filter (fun e =>
        !e.dir && !((u "META-INF/").isPrefixOf e.name) &&
          (zipFileGet mz e.name).isNone)).length ++
      u " files from " ++ f.1.name)
    pure (mergeSplitEntries mz splitZip)

/-- The base archive a bundle merge starts from (the selected nested
archive's decoded content). -/
def bundleBaseArchive (bundleZip : Bundle) : Archive :=
  match bundleZip.find? (fun f =>
      decide (f.name = selectBasePath (enumerateApkFiles bundleZip)) && !f.dir) with
  | some f =>
    match f.content with
    | .ok a => a
    | .error _ => []
  | none => []

/-- `processApksBundle`: enumerate nested `.apk` entries, throw `EmptyBundle`
when none, select and load the base, merge every other split, logging along
the way. -/
def processApksBundle (onLog : LogEntry → Except JsErr Unit)
    (bundleZipE : Except JsErr Bundle) : PM Archive := do
  let bundleZip ← pliftE bundleZipE
  if (enumerateApkFiles bundleZip).length = 0 then
    pthrow (u "No APK files found in APKS bundle")
  else do
    plog onLog .info (u "Found " ++
      numToString (enumerateApkFiles bundleZip).length ++ u " APK(s) in bundle")
    plog onLog .info (u "Base APK: " ++ selectBasePath (enumerateApkFiles bundleZip))
    let mainZip ← pliftE
      (match bundleZip.find? (fun f =>
          decide (f.name = selectBasePath (enumerateApkFiles bundleZip)) && !f.dir) with
       | some f => f.content
       | none => Except.error (u "TypeError"))
    plog onLog .success (u "Base APK extracted")
    let mainZip ← (enumerateApkFiles bundleZip).foldlM
      (mergeStep onLog bundleZip (selectBasePath (enumerateApkFiles bundleZip))) mainZip
    plog onLog .success (u "All splits merged into single APK")
    pure mainZip

/-! #### `removeSignatures`, `collectFiles`, `processApk` -/

/-- The signature test of `removeSignatures` on one entry path. -/
def isSignaturePath (path : Units) : Bool :=
  (u "META-INF/").isPrefixOf path &&
    (let upperPath := upperUnits path
     endsWithUnits upperPath (u ".SF") || endsWithUnits upperPath (u ".RSA") ||
       endsWithUnits upperPath (u ".DSA") || endsWithUnits upperPath (u ".EC") ||
       decide (upperPath = u "META-INF/MANIFEST.MF") ||
       containsSub upperPath (u "CERT") || containsSub upperPath (u "SIGN"))

/-- `removeSignatures`: the stripped archive and the number of removed
paths. -/
def removeSignatures (z : Archive) : Archive × Nat :=
  let filesToRemove := (z.map (·.name)).filter isSignaturePath
  (filesToRemove.foldl zipRemove z, filesToRemove.length)

/-- `collectFiles`: the entry-name→bytes map over non-directory entries. -/
def collectFiles (z : Archive) : List (Units × Bytes) :=
  (z.filter (fun e => !e.dir)).map (fun e => (e.name, e.data))

/-- The `ApkInfo` view assembled by `processApk`. -/
structure ApkInfoView where
  packageName : Units
  versionName : Units
  versionCode : Units
  minSdk : Units
  targetSdk : Units
  isDebuggable : Bool
  permissions : List Units
deriving Repr, DecidableEq

/-- `ProcessResult` (`apkBlob` is the serialized archive's bytes). -/
structure ProcessResult where
  success : Bool
  apkBlob : Option Bytes := none
  apkInfo : Option ApkInfoView := none
  logs : List LogEntry
deriving Repr, DecidableEq

/-- The input `File` together with every external collaborator `processApk`
consumes: the decoded archive (or bundle) behind `JSZip.loadAsync`, the
formatted size texts, WebCrypto key generation, SHA-256/Base64, PKI.js CMS
signing and `generateAsync` serialization. -/
structure ProcInput where
  name : Units
  sizeText : Units
  bufferOk : Except JsErr Unit
  loadZip : Except JsErr Archive
  loadBundle : Except JsErr Bundle
  keyGen : Except JsErr Unit
  hash : Bytes → Units
  rsa : Units → Except JsErr Bytes
  generate : Archive → Except JsErr Bytes
  outSizeText : Units

/-- The `ApkInfo` built from a parsed manifest. -/
def apkInfoOfManifest (info : ApkManifestInfo) : ApkInfoView :=
  { packageName := jsOr info.packageName (u "unknown")
    versionName := jsOr info.versionName (u "1.0")
    versionCode := numToString info.versionCode
    minSdk := if 0 < info.minSdkVersion then u "API " ++ numToString info.minSdkVersion
              else u "N/A"
    targetSdk := if 0 < info.targetSdkVersion then u "API " ++ numToString info.targetSdkVersion
                 else u "N/A"
    isDebuggable := info.isDebuggable
    permissions := info.permissions }

/-- The fallback `ApkInfo` used when manifest parsing fails. -/
def fallbackApkInfo : ApkInfoView :=
  { packageName := u "unknown.app", versionName := u "1.0", versionCode := u "1",
    minSdk := u "N/A", targetSdk := u "N/A", isDebuggable := false, permissions := [] }

/-- The body of `processApk`'s outer `try` block. -/
def processApkBody (inp : ProcInput) (onLog : LogEntry → Except JsErr Unit) :
    PM (Bytes × ApkInfoView) := do
  plog onLog .info (u "Loading file: " ++ inp.name ++ u " (" ++ inp.sizeText ++ u " MB)")
  let _ ← pliftE inp.bufferOk
  let isApks := endsWithUnits (lowerUnits inp.name) (u ".apks")
  let mainZip ←
    if isApks then do
      plog onLog .info (u "Detected APKS bundle format")
      processApksBundle onLog inp.loadBundle
    else do
      let z ← pliftE inp.loadZip
      plog onLog .success (u "APK extracted successfully")
      pure z
  let manifestFile ←
    match zipFileGet mainZip (u "AndroidManifest.xml") with
    | some f => pure f
    | none => pthrow (u "AndroidManifest.xml not found in APK")
  plog onLog .info (u "Parsing AndroidManifest.xml (binary AXML format)...")
  let manifestData := manifestFile.data
  let apkInfo ← ptry
    (do
      let (info, _) ← pliftO (parseAndroidManifest manifestData) (u "parse error")
      let apkInfo := apkInfoOfManifest info
      plog onLog .success (u "Parsed manifest: " ++ apkInfo.packageName ++ u " v" ++
        apkInfo.versionName)
      if info.isDebuggable then plog onLog .warning (u "App is already debuggable")
      else pure ()
      pure apkInfo)
    (fun _ => do
      plog onLog .warning (u "Could not fully parse manifest, using fallback")
      pure fallbackApkInfo)
  plog onLog .info (u "Patching manifest to enable debugging...")
  let modifiedManifest ← ptry
    (do
      let m ← pliftO (makeManifestDebuggable manifestData) (u "axml error")
      plog onLog .success (u "Manifest patched: android:debuggable=\"true\"")
      pure m)
    (fun _ => do
      plog onLog .warning (u "Could not modify manifest via AXML, using binary patch")
      pure (patchManifestBinary manifestData))
  let mainZip := zipFileSet mainZip (u "AndroidManifest.xml") modifiedManifest
  plog onLog .info (u "Removing existing signatures...")
  let stripped := removeSignatures mainZip
  let mainZip := stripped.1
  plog onLog .success (u "Removed " ++ numToString stripped.2 ++
    u " signature files from META-INF")
  plog onLog .info (u "Collecting files for signing...")
  let fileMap := collectFiles mainZip
  plog onLog .success (u "Collected " ++ numToString fileMap.length ++ u " files")
  plog onLog .info (u "Generating debug signing key...")
  let _ ← pliftE inp.keyGen
  plog onLog .success (u "RSA 2048-bit key pair generated")
  plog onLog .info (u "Creating JAR signature (v1)...")
  let (manifestMF, certSF, certRSA) ← pliftE (signApk inp.hash inp.rsa fileMap)
  let mainZip := zipFileSet mainZip (u "META-INF/MANIFEST.MF") (utf8EncodeUnits manifestMF)
  let mainZip := zipFileSet mainZip (u "META-INF/CERT.SF") (utf8EncodeUnits certSF)
  let mainZip := zipFileSet mainZip (u "META-INF/CERT.RSA") certRSA
  plog onLog .success (u "APK signed with PKCS#7 signature")
  plog onLog .info (u "Generating final APK...")
  let apkBlob ← pliftE (inp.generate mainZip)
  let apkInfo := { apkInfo with isDebuggable := true }
  plog onLog .success (u "APK generated successfully (" ++ inp.outSizeText ++ u " MB)")
  plog onLog .info (u "Install with: adb install -t <filename>.apk")
  pure (apkBlob, apkInfo)

/-- `processApk`: run the body under the outer `try`; the `catch` logs an
`error` event (whose `onLog` invocation may itself throw, escaping the
function) and returns `{success: false, logs}`. -/
def processApk (inp : ProcInput) (onLog : LogEntry → Except JsErr Unit) :
    Except JsErr ProcessResult :=
  match processApkBody inp onLog [] with
  | (.ok (blob, info), logs) =>
    .ok { success := true, apkBlob := some blob, apkInfo := some info, logs := logs }
  | (.error e, logs) =>
    match plog onLog .error (u "Processing failed: " ++ e) logs with
    | (.ok _, logs') => .ok { success := false, logs := logs' }
    | (.error e', _) => .error e'

/-! ### Concrete compiled-XML fixtures

Small well-formed AXML buffers used as concrete inputs.  `mkUtf16Pool`
serializes a UTF-16 string pool (length-prefixed code units, flag word 0);
the UTF-8 fixtures reuse the embedded `writeStringPoolBytes`. -/

/-- A UTF-16 string-pool chunk for test buffers. -/
def mkUtf16Pool (strs : List String) : Bytes :=
  let bodies := strs.map (fun s => u16Bytes (u s).length ++ ((u s).map u16Bytes).flatten)
  let offsets := cumOffsets (bodies.map List.length) 0
  let dataEnd := 28 + 4 * strs.length + bodies.flatten.length
  let pad := (4 - dataEnd % 4) % 4
  u32Bytes CHUNK_STRING_POOL ++ u32Bytes (dataEnd + pad) ++ u32Bytes strs.length ++
    u32Bytes 0 ++ u32Bytes 0 ++ u32Bytes (20 + 4 * strs.length) ++ u32Bytes 0 ++
    (offsets.map u32Bytes).flatten ++ bodies.flatten ++ List.replicate pad 0

/-- A start-element chunk for test buffers (standard 20-byte attribute
records, `attributeStart = attributeSize = 0x14`). -/
def mkStart (name : Nat) (attrs : List AXMLAttribute) : Bytes :=
  startElementBytes
    { chunkType := CHUNK_XML_START_ELEMENT, lineNumber := 1,
      comment := 4294967295, namespaceUri := -1, name := name } attrs

/-- An end-element chunk for test buffers. -/
def mkEnd (name : Nat) : Bytes :=
  u32Bytes CHUNK_XML_END_ELEMENT ++ u32Bytes 24 ++ u32Bytes 1 ++
    u32Bytes 4294967295 ++ i32Bytes (-1) ++ u32Bytes name

/-- A whole compiled-XML file for test buffers. -/
def mkAxmlFile (chunks : List Bytes) : Bytes :=
  let body := chunks.flatten
  u32Bytes CHUNK_AXML_FILE ++ u32Bytes (8 + body.length) ++ body

/-- Fixture: `application` already carries `debuggable` with data word
`0xFFFFFFFF` (already true). -/
def B1 : Bytes := mkAxmlFile [
  writeStringPoolBytes [u "manifest", u "application", u "debuggable"],
  writeResourceIdsBytes [ATTR_DEBUGGABLE],
  mkStart 0 [], mkStart 1 [⟨-1, 2, -1, TYPE_INT_BOOLEAN, -1⟩],
  mkEnd 1, mkEnd 0]

/-- Fixture: `application` carries `debuggable` with data word `0`
(`debuggable="false"`). -/
def B1f : Bytes := mkAxmlFile [
  writeStringPoolBytes [u "manifest", u "application", u "debuggable"],
  writeResourceIdsBytes [ATTR_DEBUGGABLE],
  mkStart 0 [], mkStart 1 [⟨-1, 2, -1, TYPE_INT_BOOLEAN, 0⟩],
  mkEnd 1, mkEnd 0]

/-- Fixture: the `debuggable` string exists in the pool, no resource-id
table, and `application` carries a boolean `allowBackup` attribute (the
template for the in-place insert path). -/
def B2 : Bytes := mkAxmlFile [
  mkUtf16Pool ["manifest", "application", "debuggable", "allowBackup"],
  mkStart 0 [], mkStart 1 [⟨-1, 3, -1, TYPE_INT_BOOLEAN, 0⟩],
  mkEnd 1, mkEnd 0]

/-- Fixture: neither a `debuggable` string nor a resource-id table, and a
bare `application` element (the full-rebuild path). -/
def B3 : Bytes := mkAxmlFile [
  mkUtf16Pool ["manifest", "application"],
  mkStart 0 [], mkStart 1 [], mkEnd 1, mkEnd 0]

/-- Fixture: no `application` element at all. -/
def B4 : Bytes := mkAxmlFile [
  writeStringPoolBytes [u "manifest"], mkStart 0 [], mkEnd 0]

def emptyParsed : ParsedAXML := ⟨[], [], [], [], 0, 0, 0, 0, 0⟩

/-- The parse of `B1` (asserted equal to `AXMLParser.parse B1` below). -/
def pB1 : ParsedAXML := (AXMLParser.parse B1).getD emptyParsed

def pB1f : ParsedAXML := (AXMLParser.parse B1f).getD emptyParsed

def pB2 : ParsedAXML := (AXMLParser.parse B2).getD emptyParsed

def pB3 : ParsedAXML := (AXMLParser.parse B3).getD emptyParsed

def pB4 : ParsedAXML := (AXMLParser.parse B4).getD emptyParsed

set_option maxRecDepth 1000000

/-! ### Supporting lemmas -/

/-- The number of byte positions at which two buffers differ. -/
def diffByteCount (a b : Bytes) : Nat :=
  ((List.range (max a.length b.length)).filter
    (fun j => decide (getByte a j ≠ getByte b j))).length

theorem getByte_set_ne {d : Bytes} {k j v : Nat} (h : k ≠ j) :
    getByte (d.set k v) j = getByte d j := by
  simp [getByte, List.getD_eq_getElem?_getD, List.getElem?_set_ne h]

theorem getByte_set_self {d : Bytes} {k v : Nat} (h : k < d.length) :
    getByte (d.set k v) k = v := by
  simp [getByte, List.getD_eq_getElem?_getD, List.getElem?_set_self h]

theorem length_write32 (d : Bytes) (i v : Nat) : (write32 d i v).length = d.length := by
  simp [write32]

theorem length_writeI32 (d : Bytes) (i : Nat) (v : Int) :
    (writeI32 d i v).length = d.length := by
  simp [writeI32, length_write32]

theorem getByte_write32_outside {d : Bytes} {i v j : Nat}
    (h : j < i ∨ i + 4 ≤ j) : getByte (write32 d i v) j = getByte d j := by
  unfold write32
  rw [getByte_set_ne (by omega), getByte_set_ne (by omega),
    getByte_set_ne (by omega), getByte_set_ne (by omega)]

theorem getByte_writeI32_outside {d : Bytes} {i j : Nat} {v : Int}
    (h : j < i ∨ i + 4 ≤ j) : getByte (writeI32 d i v) j = getByte d j :=
  getByte_write32_outside h

theorem getByte_writeI32_neg1 {d : Bytes} {i : Nat} (h : i + 4 ≤ d.length) :
    ∀ k, k < 4 → getByte (writeI32 d i (-1)) (i + k) = 255 := by
  intro k hk
  have e : ((-1 : Int).emod 4294967296).toNat = 4294967295 := by decide
  unfold writeI32 write32
  rw [e]
  interval_cases k
  · rw [getByte_set_ne (by omega), getByte_set_ne (by omega), getByte_set_ne (by omega)]
    simpa using getByte_set_self (v := 4294967295 % 256) (by omega)
  · rw [getByte_set_ne (by omega), getByte_set_ne (by omega)]
    rw [show i + 1 = i + 1 from rfl]
    have := getByte_set_self (d := d.set i (4294967295 % 256)) (k := i+1)
      (v := 4294967295 / 256 % 256) (by simpa using (by omega : i + 1 < d.length))
    simpa using this
  · rw [getByte_set_ne (by omega)]
    have := getByte_set_self
      (d := (d.set i (4294967295 % 256)).set (i+1) (4294967295 / 256 % 256))
      (k := i+2) (v := 4294967295 / 65536 % 256) (by simpa using (by omega : i + 2 < d.length))
    simpa using this
  · have := getByte_set_self
      (d := ((d.set i (4294967295 % 256)).set (i+1) (4294967295 / 256 % 256)).set (i+2)
        (4294967295 / 65536 % 256))
      (k := i+3) (v := 4294967295 / 16777216 % 256)
      (by simpa using (by omega : i + 3 < d.length))
    simpa using this

/-! ### Claim C1 -/

/-- C1, as stated, is refuted when the `debuggable` attribute is already
true: on `B1` (a well-formed compiled XML whose `application` element
carries `debuggable` with data word `0xFFFFFFFF`), `makeDebuggable` returns
a buffer byte-identical to its input — differing in 0 bytes, not exactly
4. -/
theorem claimC1_counterexample :
    AXMLParser.parse B1 = some pB1 ∧
    findDebugAttr? pB1.strings B1 172 1 = some (some 172) ∧
    readI32? B1 188 = some (-1) ∧
    makeDebuggable pB1 = some B1 ∧
    diffByteCount B1 B1 = 0 ∧ ¬ diffByteCount B1 B1 = 4 :=
  ⟨by decide, by decide, by decide, by decide, by decide, by decide⟩

/-- C1 (amended): when the scan of `makeDebuggable` finds the first
`application` start-element at `cs` with `n` attributes and the first
`debuggable` attribute record at `aOff`, the result is the input with only
that record's data word (bytes `aOff+16 … aOff+19`) overwritten by
`0xFFFFFFFF`: the length is unchanged, every byte outside those four is
unchanged (so the buffer parses as before apart from that data word), each
of the four becomes `0xFF` (so at most 4 bytes differ — exactly 4 precisely
when none of them was already `0xFF`), and any differing position lies in
the data word. -/
theorem claimC1_amended (p : ParsedAXML) (cs n aOff : Nat)
    (h1 : findAppChunk? p.strings p.rawData (p.rawData.length + 1) p.elementsOffset =
      some (some (cs, n)))
    (h2 : findDebugAttr? p.strings p.rawData (cs + 36) n = some (some aOff))
    (h3 : aOff + 20 ≤ p.rawData.length) :
    makeDebuggable p = some (writeI32 p.rawData (aOff + 16) (-1)) ∧
    (writeI32 p.rawData (aOff + 16) (-1)).length = p.rawData.length ∧
    (∀ j, j < aOff + 16 ∨ aOff + 20 ≤ j →
      getByte (writeI32 p.rawData (aOff + 16) (-1)) j = getByte p.rawData j) ∧
    (∀ k, k < 4 → getByte (writeI32 p.rawData (aOff + 16) (-1)) (aOff + 16 + k) = 255) ∧
    (∀ j, getByte (writeI32 p.rawData (aOff + 16) (-1)) j ≠ getByte p.rawData j →
      aOff + 16 ≤ j ∧ j < aOff + 20) := by
  refine ⟨?_, length_writeI32 _ _ _, ?_, ?_, ?_⟩
  · simp [makeDebuggable, h1, h2, h3]
  · intro j hj
    exact getByte_writeI32_outside (by omega)
  · exact getByte_writeI32_neg1 (by omega)
  · intro j hne
    rcases Nat.lt_or_ge j (aOff + 16) with h | h
    · exact absurd (getByte_writeI32_outside (Or.inl h)) hne
    · rcases Nat.lt_or_ge j (aOff + 20) with h' | h'
      · exact ⟨h, h'⟩
      · exact absurd (getByte_writeI32_outside (Or.inr h')) hne

/-- Witness for C1 (amended) at `B1f` (`debuggable="false"`): the scan
hypotheses hold concretely, the rewrite overwrites the data word at 188,
and exactly 4 bytes differ. -/
theorem claimC1_witness :
    findAppChunk? pB1f.strings pB1f.rawData (pB1f.rawData.length + 1) pB1f.elementsOffset =
      some (some (136, 1)) ∧
    makeDebuggable pB1f = some (writeI32 pB1f.rawData 188 (-1)) ∧
    diffByteCount (writeI32 pB1f.rawData 188 (-1)) B1f = 4 :=
  ⟨by decide,
   (claimC1_amended pB1f 136 1 172 (by decide) (by decide) (by decide)).1,
   by decide⟩

/-! ### Claim C10 -/

/-- C10: when the chunk scan of `makeDebuggable` (the walk the source
performs over the element stream from `parsed.elementsOffset`) encounters no
start-element whose tag resolves to `application`, `makeDebuggable` succeeds
and returns the buffer unchanged — no attribute is added anywhere.  (In the
source the returned buffer is a fresh `Uint8Array` copy, so the input array
is not mutated; the embedding is pure, where only the byte-identity is
expressible.) -/
theorem claimC10_no_application (p : ParsedAXML)
    (h : findAppChunk? p.strings p.rawData (p.rawData.length + 1) p.elementsOffset =
      some none) :
    makeDebuggable p = some p.rawData := by
  simp [makeDebuggable, h]

/-- Witness for C10 at `B4`: a well-formed buffer that parses, whose element
stream contains no `application` start-element; `makeDebuggable` returns it
byte-identically. -/
theorem claimC10_witness :
    AXMLParser.parse B4 = some pB4 ∧
    (pB4.elements.all (fun el => !(decide (el.chunkType = CHUNK_XML_START_ELEMENT) &&
      decide (stringAtN pB4.strings el.name = u "application")))) = true ∧
    makeDebuggable pB4 = some pB4.rawData ∧
    pB4.rawData = B4 :=
  ⟨by decide, by decide, claimC10_no_application pB4 (by decide), by decide⟩

/-! ### Claim C2 -/

/-- The structural rewrite of `B3`. -/
def outB3 : Bytes := (makeDebuggable pB3).getD []

/-- The parse of the structural rewrite of `B3`. -/
def pOutB3 : ParsedAXML := (AXMLParser.parse outB3).getD emptyParsed

/-- C2 is wrong about the code: on `B3` (no `debuggable` string, no
resource-id table, bare `application`), `makeDebuggable` takes the
structural-rewrite path (`rebuildWithDebuggable`), the output parses, its
strings contain `debuggable` — but at index 2, while `0x0101000f` sits at
index 0 of the resource-id table: the rewrite appends the string at
`strings.length` and the id at `resourceIds.length`, so the two indices
coincide only when those lengths happen to be equal, the prefix-alignment
invariant is broken, and the appended attribute (name index 2) does not
resolve to resource id `0x0101000f`. -/
theorem claimC2_rebuild_misaligned :
    AXMLParser.parse B3 = some pB3 ∧
    makeDebuggable pB3 = rebuildWithDebuggable pB3 ∧
    makeDebuggable pB3 = some outB3 ∧
    AXMLParser.parse outB3 = some pOutB3 ∧
    pOutB3.strings.findIdx? (· = u "debuggable") = some 2 ∧
    pOutB3.resourceIds.findIdx? (· = ATTR_DEBUGGABLE) = some 0 ∧
    (pOutB3.elements.map (fun el => el.attributes.map (·.name))) =
      [[], [2], [], []] ∧
    ¬ (2 : Nat) = 0 :=
  ⟨by decide, by decide, by decide, by decide, by decide, by decide, by decide,
   by decide⟩

/-! ### Claim C7 -/

/-- The rewrite of `B2` (the in-place insert path). -/
def outB2 : Bytes := (makeDebuggable pB2).getD []

/-- C7, as stated, is refuted: on `B2` (`debuggable` string present, its
resource id absent, a boolean `allowBackup` template on `application`),
`makeDebuggable` inserts 20 bytes into the original buffer — the output is
20 bytes longer (not byte-neutral) yet keeps the original UTF-16 string
pool verbatim (flag word 0 at offset 24, where a regeneration always emits
a fresh UTF-8 pool with flag 256) and differs from what the full
regeneration produces. -/
theorem claimC7_counterexample :
    AXMLParser.parse B2 = some pB2 ∧
    makeDebuggable pB2 = some outB2 ∧
    outB2.length = B2.length + 20 ∧
    getByte B2 25 = 0 ∧ getByte outB2 25 = 0 ∧
    getByte ((rebuildWithDebuggable pB2).getD []) 25 = 1 ∧
    makeDebuggable pB2 ≠ rebuildWithDebuggable pB2 :=
  ⟨by decide, by decide, by decide, by decide, by decide, by decide, by decide⟩

/-- The in-place 20-byte attribute insert performed by
`addDebuggableAttribute` when the `debuggable` string exists, its resource
id is absent and a boolean template attribute is present: the new record is
spliced in after the existing records, then the file size, the element
chunk size and the attribute count are updated. -/
def inPlaceInsertOutput (p : ParsedAXML) (cs n : Nat) : Bytes :=
  let d := p.rawData
  let ip := cs + 36 + n * 20
  let newAttr := i32Bytes (indexOfUnits p.strings ANDROID_NS) ++
    u32Bytes (indexOfUnits p.strings (u "debuggable")).toNat ++
    i32Bytes (-1) ++ u32Bytes 0x12000008 ++ i32Bytes (-1)
  let inserted := d.take ip ++ newAttr ++ d.drop ip
  write16 (write32 (write32 inserted 4 inserted.length) (cs + 4)
    (readU32val d (cs + 4) + 20)) (cs + 28) (n + 1)

theorem getByte_write16_outside {d : Bytes} {i v j : Nat}
    (h : j < i ∨ i + 2 ≤ j) : getByte (write16 d i v) j = getByte d j := by
  unfold write16
  rw [getByte_set_ne (by omega), getByte_set_ne (by omega)]

theorem length_write16 (d : Bytes) (i v : Nat) : (write16 d i v).length = d.length := by
  simp [write16]

theorem getByte_append_left {a b : Bytes} {j : Nat} (h : j < a.length) :
    getByte (a ++ b) j = getByte a j := by
  simp [getByte, List.getD_eq_getElem?_getD, List.getElem?_append_left h]

theorem getByte_take {l : Bytes} {n j : Nat} (h : j < n) :
    getByte (l.take n) j = getByte l j := by
  rw [getByte, getByte, List.getD_eq_getElem?_getD, List.getD_eq_getElem?_getD,
    List.getElem?_take, if_pos h]

/-- C7 (amended): a rewrite by `makeDebuggable` is byte-neutral, or a full
regeneration, or — exactly on the third source path, when the `debuggable`
string is already pooled, its resource id is absent and the `application`
element carries a boolean-typed attribute — an in-place insert of one
20-byte attribute record at the end of the `application` element's records,
updating only the file's total size, that element chunk's size and its
attribute count; every byte of the earlier chunks (positions `8 ≤ j < cs`,
hence the whole string pool including its `stringsStart`, and the
resource-id table) is left unrevised. -/
theorem claimC7_amended (p : ParsedAXML) (cs n tOff : Nat)
    (h1 : findAppChunk? p.strings p.rawData (p.rawData.length + 1) p.elementsOffset =
      some (some (cs, n)))
    (h2 : findDebugAttr? p.strings p.rawData (cs + 36) n = some none)
    (h3 : indexOfUnits p.strings (u "debuggable") ≠ -1)
    (h4 : p.resourceIds.findIdx? (· = ATTR_DEBUGGABLE) = none)
    (h5 : findBoolTemplate? p.rawData (cs + 36) n = some (some tOff))
    (h6 : cs + 36 + n * 20 ≤ p.rawData.length) :
    makeDebuggable p = some (inPlaceInsertOutput p cs n) ∧
    (inPlaceInsertOutput p cs n).length = p.rawData.length + 20 ∧
    (∀ j, 8 ≤ j → j < cs → getByte (inPlaceInsertOutput p cs n) j = getByte p.rawData j) := by
  have hip : cs + 36 + n * 20 ≤ p.rawData.length := h6
  have hlen : (p.rawData.take (cs + 36 + n * 20) ++
      (i32Bytes (indexOfUnits p.strings ANDROID_NS) ++
        u32Bytes (indexOfUnits p.strings (u "debuggable")).toNat ++
        i32Bytes (-1) ++ u32Bytes 0x12000008 ++ i32Bytes (-1)) ++
      p.rawData.drop (cs + 36 + n * 20)).length = p.rawData.length + 20 := by
    simp [i32Bytes, u32Bytes, List.length_take, List.length_drop]
    omega
  refine ⟨?_, ?_, ?_⟩
  · have hread : readU32? p.rawData (cs + 4) = some (readU32val p.rawData (cs + 4)) := by
      unfold readU32?
      rw [if_pos (by omega)]
    simp only [makeDebuggable, addDebuggableAttribute, h1, h2, h4, h5, hread,
      inPlaceInsertOutput, Option.bind_eq_bind, Option.some_bind, or_true, if_true]
    rw [if_neg h3, if_pos h6]
    rfl
  · simp only [inPlaceInsertOutput, length_write16, length_write32]
    exact hlen
  · intro j hj8 hjcs
    simp only [inPlaceInsertOutput]
    rw [getByte_write16_outside (by omega), getByte_write32_outside (by omega),
      getByte_write32_outside (by omega)]
    have l2 : j < (p.rawData.take (cs + 36 + n * 20)).length := by
      rw [List.length_take]
      omega
    have l1 : j < (p.rawData.take (cs + 36 + n * 20) ++
        (i32Bytes (indexOfUnits p.strings ANDROID_NS) ++
          u32Bytes (indexOfUnits p.strings (u "debuggable")).toNat ++
          i32Bytes (-1) ++ u32Bytes 0x12000008 ++ i32Bytes (-1))).length := by
      simp only [List.length_append]
      omega
    rw [getByte_append_left l1, getByte_append_left l2, getByte_take (by omega)]

/-- Witness for C7 (amended) at `B2`: every hypothesis holds concretely and
the insert path result is 20 bytes longer with the earlier chunks
untouched. -/
theorem claimC7_witness :
    makeDebuggable pB2 = some (inPlaceInsertOutput pB2 176 1) ∧
    (inPlaceInsertOutput pB2 176 1).length = pB2.rawData.length + 20 :=
  ⟨(claimC7_amended pB2 176 1 212 (by decide) (by decide) (by decide) (by decide)
      (by decide) (by decide)).1,
   (claimC7_amended pB2 176 1 212 (by decide) (by decide) (by decide) (by decide)
      (by decide) (by decide)).2.1⟩

/-! ### Claim C3 -/

/-- A stand-in for `sha256Base64`: a constant 44-character Base64 string
(the length every SHA-256 Base64 digest has). -/
def dummyHash : Bytes → Units := fun _ => u "AAAAAAAAAAAAAAAAAAAAAAAAAAAAAAAAAAAAAAAAAAA="

/-- A 65-character entry name, long enough that its `Name:` line wraps. -/
def name65 : Units := List.replicate 65 97

def mfC3 : Units := createManifestMF dummyHash [(name65, [0])]

def sfC3 : Units := createCertSF dummyHash mfC3 [(name65, [0])]

/-- C3's failing input evaluated: for the single-entry map whose name has 65
characters, `MANIFEST.MF` wraps the `Name:` line (70 characters, then a
space-prefixed continuation carrying the 65th `a`), but `createCertSF` reads
the name back from only the first physical line (`line.substring(6)`), so the
`.SF` block's `Name` value is the 64-character truncation: the full name
appears nowhere in the `.SF`. -/
theorem claimC3_sf_name_truncated :
    (u "Name: " ++ name65).length = 71 ∧
    containsSub mfC3
      (u "Name: " ++ List.replicate 64 97 ++ CRLF ++ u " a" ++ CRLF) = true ∧
    containsSub sfC3 (u "Name: " ++ List.replicate 64 97 ++ CRLF) = true ∧
    containsSub sfC3 name65 = false :=
  ⟨by decide, by decide, by decide, by decide⟩

/-! ### Claim C6 -/

/-- The base-selection precedence the claim describes: first the entry whose
lowercased name equals `base.apk`, else the first containing `base`, else
the first containing `universal`, otherwise the first enumerated entry. -/
def claimSelectBasePath (names : List Units) : Units :=
  match names.find? (fun nm => lowerUnits nm = u "base.apk") with
  | some nm => nm
  | none =>
    match names.find? (fun nm => containsSub (lowerUnits nm) (u "base")) with
    | some nm => nm
    | none =>
      match names.find? (fun nm => containsSub (lowerUnits nm) (u "universal")) with
      | some nm => nm
      | none => names.headD []

/-- The selection the code actually performs, stated on names: the first
entry whose lowercased name contains `base` or `universal` (the
`=== 'base.apk'` disjunct is subsumed by the former), otherwise the first
enumerated entry. -/
def amendedSelectBasePath (apkFiles : List (BundleEntry × Bool)) : Units :=
  match apkFiles.find? (fun f => containsSub (lowerUnits f.1.name) (u "base") ||
      containsSub (lowerUnits f.1.name) (u "universal")) with
  | some f => f.1.name
  | none =>
    match apkFiles with
    | f :: _ => f.1.name
    | [] => []

/-- A bundle whose first nested archive contains `universal`, followed by
one named exactly `base.apk`. -/
def bundleC6 : Bundle := [
  ⟨u "universal.apk", false, .ok [⟨u "u.txt", false, [1]⟩]⟩,
  ⟨u "base.apk", false, .ok [⟨u "b.txt", false, [2]⟩]⟩]

/-- C6, as stated, is refuted: on `bundleC6` the code selects
`universal.apk` (the first entry whose flag is set — there is no tiered
precedence), while the claimed precedence selects `base.apk`; the full
bundle merge indeed starts from `universal.apk` and logs it as the base. -/
theorem claimC6_counterexample :
    selectBasePath (enumerateApkFiles bundleC6) = u "universal.apk" ∧
    claimSelectBasePath ((enumerateApkFiles bundleC6).map (·.1.name)) = u "base.apk" ∧
    ¬ (u "universal.apk" = u "base.apk") ∧
    (processApksBundle (fun _ => .ok ()) (.ok bundleC6) []).1 =
      .ok [⟨u "u.txt", false, [1]⟩, ⟨u "b.txt", false, [2]⟩] ∧
    ((processApksBundle (fun _ => .ok ()) (.ok bundleC6) []).2).contains
      ⟨.info, u "Base APK: universal.apk"⟩ = true :=
  ⟨by decide, by decide, by decide, by decide, by decide⟩

theorem find?_congr_of_mem {α : Type} {p q : α → Bool} :
    ∀ l : List α, (∀ x ∈ l, p x = q x) → l.find? p = l.find? q := by
  intro l
  induction l with
  | nil => intro _; rfl
  | cons a as ih =>
    intro h
    have ha := h a (List.mem_cons_self a as)
    rw [List.find?_cons, List.find?_cons, ha]
    cases q a
    · exact ih (fun x hx => h x (List.mem_cons_of_mem a hx))
    · rfl

theorem isBaseName_eq (nm : Units) :
    isBaseName nm = (containsSub (lowerUnits nm) (u "base") ||
      containsSub (lowerUnits nm) (u "universal")) := by
  by_cases h : nm = u "base.apk"
  · subst h
    decide
  · simp [isBaseName, h]

theorem enumerateApkFiles_flag (bz : Bundle) :
    ∀ x ∈ enumerateApkFiles bz, x.2 = isBaseName x.1.name := by
  intro x hx
  rw [enumerateApkFiles, List.mem_filterMap] at hx
  obtain ⟨f, _, hf⟩ := hx
  by_cases hc : (endsWithUnits f.name (u ".apk") && !f.dir) = true
  · rw [if_pos hc] at hf
    cases hf
    rfl
  · rw [if_neg hc] at hf
    cases hf

/-- C6 (amended): for every bundle, the selected base is the first
enumerated nested archive whose lowercased name contains `base` or contains
`universal` (a single pass — equality with `base.apk` adds nothing), and
otherwise the first enumerated nested archive. -/
theorem claimC6_amended (bz : Bundle) :
    selectBasePath (enumerateApkFiles bz) = amendedSelectBasePath (enumerateApkFiles bz) := by
  unfold selectBasePath amendedSelectBasePath
  rw [find?_congr_of_mem (enumerateApkFiles bz) (fun x hx => by
    rw [enumerateApkFiles_flag bz x hx, isBaseName_eq])]

/-! ### Claim C8 -/

/-- The non-empty `name` attribute values of the `uses-permission`
start-elements, in document order — the names fact extraction inserts
(before the `replace` call). -/
def usesPermissionNames (strings : List Units) (elements : List AXMLElement) : List Units :=
  elements.flatMap (fun el =>
    if el.chunkType = CHUNK_XML_START_ELEMENT ∧
        stringAtN strings el.name = u "uses-permission" then
      el.attributes.flatMap (fun a =>
        if stringAtN strings a.name = u "name" ∧ stringAtI strings a.valueString ≠ [] then
          [stringAtI strings a.valueString]
        else [])
    else [])

theorem applyManifestAttr_permissions (strings : List Units) (info : ApkManifestInfo)
    (a : AXMLAttribute) : (applyManifestAttr strings info a).permissions = info.permissions := by
  unfold applyManifestAttr
  dsimp only
  repeat' split
  all_goals rfl

theorem applySdkAttr_permissions (strings : List Units) (info : ApkManifestInfo)
    (a : AXMLAttribute) : (applySdkAttr strings info a).permissions = info.permissions := by
  unfold applySdkAttr
  dsimp only
  repeat' split
  all_goals rfl

theorem applyApplicationAttr_permissions (strings : List Units) (info : ApkManifestInfo)
    (a : AXMLAttribute) : (applyApplicationAttr strings info a).permissions = info.permissions := by
  unfold applyApplicationAttr
  dsimp only
  repeat' split
  all_goals rfl

theorem foldl_permissions_preserved {f : ApkManifestInfo → AXMLAttribute → ApkManifestInfo}
    (hf : ∀ i a, (f i a).permissions = i.permissions) :
    ∀ (attrs : List AXMLAttribute) (info : ApkManifestInfo),
      (attrs.foldl f info).permissions = info.permissions := by
  intro attrs
  induction attrs with
  | nil => intro info; rfl
  | cons a as ih => intro info; rw [List.foldl_cons, ih, hf]

theorem applyPermissionAttr_permissions (strings : List Units) (info : ApkManifestInfo)
    (a : AXMLAttribute) :
    (applyPermissionAttr strings info a).permissions = info.permissions ++
      (if stringAtN strings a.name = u "name" ∧ stringAtI strings a.valueString ≠ [] then
        [jsReplaceFirst (stringAtI strings a.valueString) permissionPrefix []]
      else []) := by
  unfold applyPermissionAttr
  by_cases h1 : stringAtN strings a.name = u "name"
  · by_cases h2 : stringAtI strings a.valueString ≠ []
    · simp [h1, h2]
    · simp [h1, h2]
  · simp [h1]

theorem foldl_applyPermissionAttr (strings : List Units) :
    ∀ (attrs : List AXMLAttribute) (info : ApkManifestInfo),
      (attrs.foldl (applyPermissionAttr strings) info).permissions = info.permissions ++
        attrs.flatMap (fun a =>
          if stringAtN strings a.name = u "name" ∧ stringAtI strings a.valueString ≠ [] then
            [jsReplaceFirst (stringAtI strings a.valueString) permissionPrefix []]
          else []) := by
  intro attrs
  induction attrs with
  | nil => intro info; simp
  | cons a as ih =>
    intro info
    rw [List.foldl_cons, List.flatMap_cons, ih, applyPermissionAttr_permissions,
      List.append_assoc]

theorem getManifestInfoStep_permissions (strings : List Units) (info : ApkManifestInfo)
    (el : AXMLElement) :
    (getManifestInfoStep strings info el).permissions = info.permissions ++
      (if el.chunkType = CHUNK_XML_START_ELEMENT ∧
          stringAtN strings el.name = u "uses-permission" then
        el.attributes.flatMap (fun a =>
          if stringAtN strings a.name = u "name" ∧ stringAtI strings a.valueString ≠ [] then
            [jsReplaceFirst (stringAtI strings a.valueString) permissionPrefix []]
          else [])
      else []) := by
  by_cases hct : el.chunkType = CHUNK_XML_START_ELEMENT
  · simp only [getManifestInfoStep, if_pos hct]
    have p1 : ∀ i : ApkManifestInfo,
        (if stringAtN strings el.name = u "manifest" then
          el.attributes.foldl (applyManifestAttr strings) i else i).permissions =
        i.permissions := by
      intro i
      split
      · exact foldl_permissions_preserved (applyManifestAttr_permissions strings) _ _
      · rfl
    have p2 : ∀ i : ApkManifestInfo,
        (if stringAtN strings el.name = u "uses-sdk" then
          el.attributes.foldl (applySdkAttr strings) i else i).permissions =
        i.permissions := by
      intro i
      split
      · exact foldl_permissions_preserved (applySdkAttr_permissions strings) _ _
      · rfl
    have p3 : ∀ i : ApkManifestInfo,
        (if stringAtN strings el.name = u "application" then
          el.attributes.foldl (applyApplicationAttr strings) i else i).permissions =
        i.permissions := by
      intro i
      split
      · exact foldl_permissions_preserved (applyApplicationAttr_permissions strings) _ _
      · rfl
    by_cases htag : stringAtN strings el.name = u "uses-permission"
    · rw [if_pos htag, foldl_applyPermissionAttr, p3, p2, p1, if_pos ⟨hct, htag⟩]
    · rw [if_neg htag, p3, p2, p1, if_neg (fun hc => htag hc.2)]
      simp
  · have hno : ¬(el.chunkType = CHUNK_XML_START_ELEMENT ∧
        stringAtN strings el.name = u "uses-permission") := fun hc => hct hc.1
    simp only [getManifestInfoStep, if_neg hct, if_neg hno]
    simp

theorem foldl_getManifestInfoStep (strings : List Units) :
    ∀ (elements : List AXMLElement) (info : ApkManifestInfo),
      ((elements.foldl (getManifestInfoStep strings) info)).permissions =
        info.permissions ++ elements.flatMap (fun el =>
          if el.chunkType = CHUNK_XML_START_ELEMENT ∧
              stringAtN strings el.name = u "uses-permission" then
            el.attributes.flatMap (fun a =>
              if stringAtN strings a.name = u "name" ∧
                  stringAtI strings a.valueString ≠ [] then
                [jsReplaceFirst (stringAtI strings a.valueString) permissionPrefix []]
              else [])
          else []) := by
  intro elements
  induction elements with
  | nil => intro info; simp
  | cons el els ih =>
    intro info
    rw [List.foldl_cons, List.flatMap_cons, ih, getManifestInfoStep_permissions,
      List.append_assoc]

theorem jsReplaceFirst_of_not_contains {nm pat : Units}
    (h : indexOfSub nm pat = none) : jsReplaceFirst nm pat [] = nm := by
  simp [jsReplaceFirst, h]

theorem jsReplaceFirst_of_prefix {nm pat : Units}
    (h : pat.isPrefixOf nm = true) : jsReplaceFirst nm pat [] = nm.drop pat.length := by
  have hidx : indexOfSub nm pat = some 0 := by
    rw [indexOfSub, List.range_succ_eq_map, List.find?_cons]
    have : pat.isPrefixOf (nm.drop 0) = true := by simpa using h
    rw [this]
  simp [jsReplaceFirst, hidx]

/-- A parsed document whose `uses-permission` element carries a
vendor-namespaced name containing `android.permission.` in the middle. -/
def pC8 : ParsedAXML :=
  { strings := [u "manifest", u "uses-permission", u "name",
      u "com.vendor.android.permission.READ"],
    resourceIds := [], rawData := [],
    elements := [
      { chunkType := CHUNK_XML_START_ELEMENT, lineNumber := 1, comment := 0,
        namespaceUri := -1, name := 0, attributeStart := 20, attributeSize := 20 },
      { chunkType := CHUNK_XML_START_ELEMENT, lineNumber := 2, comment := 0,
        namespaceUri := -1, name := 1, attributeStart := 20, attributeSize := 20,
        attributeCount := 1, attributes := [⟨-1, 2, 3, 3, -1⟩] }] }

/-- C8, as stated, is refuted: for a `uses-permission` name that does not
begin with `android.permission.` but contains it in the middle
(vendor-namespaced `com.vendor.android.permission.READ`), fact extraction
inserts `com.vendor.READ` — the embedded occurrence is removed, not kept
verbatim. -/
theorem claimC8_counterexample :
    (getManifestInfo pC8).permissions = [u "com.vendor.READ"] ∧
    (u "android.permission.").isPrefixOf (u "com.vendor.android.permission.READ") = false ∧
    ¬ (u "com.vendor.READ" = u "com.vendor.android.permission.READ") :=
  ⟨by decide, by decide, by decide⟩

/-- C8 (amended): fact extraction inserts every non-empty `uses-permission`
name after removing the *first occurrence* of the literal
`android.permission.` wherever it lies (JS `String.prototype.replace` with a
string pattern); names not containing the substring are inserted verbatim,
and names beginning with it have exactly the leading prefix stripped. -/
theorem claimC8_amended (p : ParsedAXML) :
    (getManifestInfo p).permissions =
      (usesPermissionNames p.strings p.elements).map
        (fun nm => jsReplaceFirst nm permissionPrefix []) ∧
    (∀ nm, indexOfSub nm permissionPrefix = none →
      jsReplaceFirst nm permissionPrefix [] = nm) ∧
    (∀ nm, permissionPrefix.isPrefixOf nm = true →
      jsReplaceFirst nm permissionPrefix [] = nm.drop permissionPrefix.length) := by
  refine ⟨?_, fun nm h => jsReplaceFirst_of_not_contains h,
    fun nm h => jsReplaceFirst_of_prefix h⟩
  rw [getManifestInfo, foldl_getManifestInfoStep, usesPermissionNames, List.map_flatMap]
  simp only [List.nil_append]
  congr 1
  funext el
  split
  · rw [List.map_flatMap]
    congr 1
    funext a
    split
    · rfl
    · rfl
  · rfl

/-- Witness for C8 (amended) at the concrete document `pC8` and concrete
permission names. -/
theorem claimC8_witness :
    (getManifestInfo pC8).permissions =
      (usesPermissionNames pC8.strings pC8.elements).map
        (fun nm => jsReplaceFirst nm permissionPrefix []) ∧
    jsReplaceFirst (u "com.example.FOO") permissionPrefix [] = u "com.example.FOO" ∧
    jsReplaceFirst (u "android.permission.CAMERA") permissionPrefix [] =
      (u "android.permission.CAMERA").drop permissionPrefix.length :=
  ⟨(claimC8_amended pC8).1,
   (claimC8_amended pC8).2.1 _ (by decide),
   (claimC8_amended pC8).2.2 _ (by decide)⟩

/-! ### Claim C9 -/

/-- A log callback that never throws. -/
def okLog : LogEntry → Except JsErr Unit := fun _ => .ok ()

/-- A log callback that throws on every event. -/
def badLog : LogEntry → Except JsErr Unit := fun _ => .error (u "callback failure")

/-- A plain `.apk` input whose external collaborators all succeed. -/
def inpC9 : ProcInput :=
  { name := u "app.apk", sizeText := u "0.00", bufferOk := .ok (), loadZip := .ok [],
    loadBundle := .ok [], keyGen := .ok (), hash := dummyHash, rsa := fun _ => .ok [],
    generate := fun _ => .ok [], outSizeText := u "0.00" }

/-- An `.apks` input whose bundle contains no nested archives
(`EmptyBundle`). -/
def inpC9b : ProcInput :=
  { name := u "app.apks", sizeText := u "0.00", bufferOk := .ok (), loadZip := .ok [],
    loadBundle := .ok [], keyGen := .ok (), hash := dummyHash, rsa := fun _ => .ok [],
    generate := fun _ => .ok [], outSizeText := u "0.00" }

/-- C9, as stated, is refuted: it quantifies over *every* log callback, but
the `catch` block itself calls the callback, so a throwing callback escapes
`processApk`: with `badLog`, the very first `log` throws, the `catch`'s
`log('error', …)` throws again, and the exception leaves the orchestrator. -/
theorem claimC9_counterexample :
    processApk inpC9 badLog = .error (u "callback failure") := by decide

theorem plog_total {onLog : LogEntry → Except JsErr Unit} (h : ∀ e, onLog e = .ok ())
    (k : LogKind) (m : Units) (s : List LogEntry) :
    plog onLog k m s = (.ok (), s ++ [⟨k, m⟩]) := by
  unfold plog
  dsimp only
  rw [h]

/-- C9 (amended): for every input and every log callback that does not
throw, `processApk` never lets an exception escape — it returns some result
`r`, and whenever `r.success = false` (any failure, including `EmptyBundle`
and signing failures, all of which reach the single `catch`), an event of
kind `error` has been emitted into `r.logs`. -/
theorem claimC9_amended (inp : ProcInput) (onLog : LogEntry → Except JsErr Unit)
    (h : ∀ e, onLog e = .ok ()) :
    ∃ r, processApk inp onLog = .ok r ∧
      (r.success = false → ∃ l ∈ r.logs, l.type = LogKind.error) := by
  unfold processApk
  rcases hb : processApkBody inp onLog [] with ⟨res, logs⟩
  cases res with
  | ok v =>
    obtain ⟨blob, info⟩ := v
    refine ⟨_, rfl, ?_⟩
    intro hfalse
    simp at hfalse
  | error e =>
    dsimp only
    rw [plog_total h]
    refine ⟨_, rfl, ?_⟩
    intro _
    exact ⟨⟨LogKind.error, u "Processing failed: " ++ e⟩, by simp, rfl⟩

/-- The result of `processApk` on the empty bundle with a non-throwing
callback. -/
def resC9b : ProcessResult :=
  (processApk inpC9b okLog).toOption.getD ⟨false, none, none, []⟩

/-- Witness for C9 (amended): on the empty bundle, `processApk` returns
(rather than throws) `{success: false, logs}` with an `error` event carrying
the `EmptyBundle` message. -/
theorem claimC9_witness :
    (∃ r, processApk inpC9b okLog = .ok r ∧
      (r.success = false → ∃ l ∈ r.logs, l.type = LogKind.error)) ∧
    processApk inpC9b okLog = .ok resC9b ∧
    resC9b.success = false ∧
    resC9b.logs.contains
      ⟨LogKind.error, u "Processing failed: No APK files found in APKS bundle"⟩ = true :=
  ⟨claimC9_amended inpC9b okLog (fun _ => rfl), by decide, by decide, by decide⟩

/-! ### Claim C4 -/

theorem luLe_total : ∀ a b : Units, (luLe a b || luLe b a) = true := by
  intro a
  induction a with
  | nil => intro b; simp [luLe]
  | cons x xs ih =>
    intro b
    cases b with
    | nil => simp [luLe]
    | cons y ys =>
      by_cases h : x < y
      · simp [luLe, h]
      · by_cases h2 : x = y
        · subst h2
          simpa [luLe] using ih ys
        · have hy : y < x := by omega
          simp [luLe, h, h2, hy, (by omega : ¬ y = x)]

theorem luLe_trans : ∀ a b c : Units, luLe a b = true → luLe b c = true →
    luLe a c = true := by
  intro a
  induction a with
  | nil => intro b c _ _; simp [luLe]
  | cons x xs ih =>
    intro b c hab hbc
    cases b with
    | nil => simp [luLe] at hab
    | cons y ys =>
      cases c with
      | nil => simp [luLe] at hbc
      | cons z zs =>
        rw [luLe] at hab hbc ⊢
        by_cases hxy : x < y
        · by_cases hyz : y < z
          · rw [if_pos (by omega)]
          · by_cases hyz2 : y = z
            · rw [if_pos (by omega)]
            · rw [if_neg hyz, if_neg hyz2] at hbc
              exact absurd hbc (by simp)
        · by_cases hxy2 : x = y
          · subst hxy2
            rw [if_neg hxy, if_pos rfl] at hab
            by_cases hxz : x < z
            · rw [if_pos hxz]
            · by_cases hxz2 : x = z
              · subst hxz2
                rw [if_neg hxz, if_pos rfl] at hbc ⊢
                exact ih ys zs hab hbc
              · rw [if_neg hxz, if_neg hxz2] at hbc
                exact absurd hbc (by simp)
          · rw [if_neg hxy, if_neg hxy2] at hab
            exact absurd hab (by simp)

theorem luLe_antisymm : ∀ a b : Units, luLe a b = true → luLe b a = true → a = b := by
  intro a
  induction a with
  | nil =>
    intro b _ hba
    cases b with
    | nil => rfl
    | cons y ys => simp [luLe] at hba
  | cons x xs ih =>
    intro b hab hba
    cases b with
    | nil => simp [luLe] at hab
    | cons y ys =>
      rw [luLe] at hab hba
      by_cases hxy : x < y
      · rw [if_neg (by omega), if_neg (by omega)] at hba
        exact absurd hba (by simp)
      · by_cases hxy2 : x = y
        · subst hxy2
          rw [if_neg hxy, if_pos rfl] at hab hba
          rw [ih ys hab hba]
        · rw [if_neg hxy, if_neg hxy2] at hab
          exact absurd hab (by simp)

instance : IsTotal Units LuLe :=
  ⟨fun a b => by
    have h := luLe_total a b
    rcases Bool.or_eq_true_iff.mp h with h' | h'
    · exact Or.inl h'
    · exact Or.inr h'⟩

instance : IsTrans Units LuLe := ⟨fun a b c => luLe_trans a b c⟩

instance : IsAntisymm Units LuLe := ⟨fun a b => luLe_antisymm a b⟩

theorem flatten_map_if {α β : Type} (q : α → Bool) (f : α → List β) :
    ∀ l : List α,
      (l.map (fun x => if q x then [] else f x)).flatten =
        ((l.filter (fun x => !q x)).map f).flatten := by
  intro l
  induction l with
  | nil => rfl
  | cons x xs ih =>
    by_cases hq : q x
    · simp [hq, ih]
    · simp [hq, ih]

theorem find?_key_unique {l : List (Units × Bytes)} (hn : (l.map Prod.fst).Nodup)
    {k : Units} {e : Units × Bytes} (he : e ∈ l) (hk : e.1 = k) :
    l.find? (fun p => p.1 = k) = some e := by
  induction l with
  | nil => cases he
  | cons x xs ih =>
    rw [List.map_cons, List.nodup_cons] at hn
    rcases List.mem_cons.mp he with rfl | hmem
    · rw [List.find?_cons]
      simp [hk]
    · have hxk : ¬ (x.1 = k) := by
        intro hx
        exact hn.1 (hx ▸ hk ▸ List.mem_map_of_mem Prod.fst hmem)
      rw [List.find?_cons]
      simp only [hxk, decide_eq_false, Bool.false_eq_true]
      exact ih hn.2 hmem

theorem mapGet_perm_eq {files files₂ : List (Units × Bytes)}
    (hnodup : (mapKeys files).Nodup) (hperm : files.Perm files₂) :
    ∀ k, mapGet files k = mapGet files₂ k := by
  intro k
  have hnodup₂ : (mapKeys files₂).Nodup := (hperm.map Prod.fst).nodup_iff.mp hnodup
  by_cases hex : ∃ e ∈ files, e.1 = k
  · obtain ⟨e, he, hk⟩ := hex
    rw [mapGet, mapGet, find?_key_unique hnodup he hk,
      find?_key_unique hnodup₂ (hperm.mem_iff.mp he) hk]
  · push_neg at hex
    rw [mapGet, mapGet, List.find?_eq_none.mpr, List.find?_eq_none.mpr]
    · intro x hx
      simpa using hex x (hperm.mem_iff.mpr hx)
    · intro x hx
      simpa using hex x hx

theorem sortedKeys_perm_eq {files files₂ : List (Units × Bytes)}
    (hperm : files.Perm files₂) :
    sortedKeys files = sortedKeys files₂ := by
  have hkp : (mapKeys files).Perm (mapKeys files₂) := hperm.map Prod.fst
  exact List.eq_of_perm_of_sorted
    (((List.perm_insertionSort LuLe (mapKeys files)).trans hkp).trans
      (List.perm_insertionSort LuLe (mapKeys files₂)).symm)
    (List.sorted_insertionSort LuLe (mapKeys files))
    (List.sorted_insertionSort LuLe (mapKeys files₂))

/-- C4: `MANIFEST.MF` is the fixed header followed by one
`Name`/`SHA-256-Digest` block per entry whose name does not start with
`META-INF/` (the map fed to the signer contains no directory entries), with
`hash` — standing for `base64(SHA-256(·))` — of the entry bytes as digest;
the emitted names are sorted by the code-unit order `LuLe` and are exactly
the eligible keys; and the output is the same for any insertion order of the
same entries. -/
theorem claimC4_manifest (hash : Bytes → Units) (files files₂ : List (Units × Bytes))
    (hnodup : (mapKeys files).Nodup) (hperm : files.Perm files₂) :
    createManifestMF hash files = manifestHeader ++
      (((sortedKeys files).filter (fun n => !((u "META-INF/").isPrefixOf n))).map
        (fun n => formatManifestEntry n (hash (mapGet files n)))).flatten ∧
    List.Sorted LuLe ((sortedKeys files).filter (fun n => !((u "META-INF/").isPrefixOf n))) ∧
    ((sortedKeys files).filter (fun n => !((u "META-INF/").isPrefixOf n))).Perm
      ((mapKeys files).filter (fun n => !((u "META-INF/").isPrefixOf n))) ∧
    createManifestMF hash files = createManifestMF hash files₂ := by
  have hstruct : ∀ (fs : List (Units × Bytes)),
      createManifestMF hash fs = manifestHeader ++
        (((sortedKeys fs).filter (fun n => !((u "META-INF/").isPrefixOf n))).map
          (fun n => formatManifestEntry n (hash (mapGet fs n)))).flatten := by
    intro fs
    rw [createManifestMF]
    congr 1
    exact flatten_map_if (fun n => (u "META-INF/").isPrefixOf n)
      (fun n => formatManifestEntry n (hash (mapGet fs n))) (sortedKeys fs)
  refine ⟨hstruct files, ?_, ?_, ?_⟩
  · exact (List.sorted_insertionSort LuLe (mapKeys files)).filter _
  · exact (List.perm_insertionSort LuLe (mapKeys files)).filter _
  · rw [hstruct files, hstruct files₂, sortedKeys_perm_eq hperm]
    congr 1
    congr 1
    exact List.map_congr_left (fun n _ => by rw [mapGet_perm_eq hnodup hperm])

/-- Witness for C4 at the spec's digest-determinism scenario: entries
`a/y`, `META-INF/OLD.SF`, `a/x` inserted out of order produce the same
manifest as the sorted insertion, and the emitted blocks are `a/x` then
`a/y` only. -/
theorem claimC4_witness :
    createManifestMF dummyHash
        [(u "a/y", [1]), (u "META-INF/OLD.SF", [2]), (u "a/x", [0])] =
      manifestHeader ++
        (formatManifestEntry (u "a/x") (dummyHash [0]) ++
          formatManifestEntry (u "a/y") (dummyHash [1])) ∧
    createManifestMF dummyHash
        [(u "a/y", [1]), (u "META-INF/OLD.SF", [2]), (u "a/x", [0])] =
      createManifestMF dummyHash
        [(u "a/x", [0]), (u "a/y", [1]), (u "META-INF/OLD.SF", [2])] :=
  ⟨by decide,
   (claimC4_manifest dummyHash
      [(u "a/y", [1]), (u "META-INF/OLD.SF", [2]), (u "a/x", [0])]
      [(u "a/x", [0]), (u "a/y", [1]), (u "META-INF/OLD.SF", [2])]
      (by decide) (by decide)).2.2.2⟩

/-! ### Claim C5 -/

theorem find?_map_rel {α β : Type} (f : α → β) (p : β → Bool) (q : α → Bool)
    (hpq : ∀ e, p (f e) = q e) :
    ∀ l : List α, (l.map f).find? p = (l.find? q).map f := by
  intro l
  induction l with
  | nil => rfl
  | cons x xs ih =>
    rw [List.map_cons, List.find?_cons, List.find?_cons, hpq]
    cases q x
    · exact ih
    · rfl

theorem find?_append_none {α : Type} {p : α → Bool} {l1 : List α} (l2 : List α)
    (h : l1.find? p = none) : (l1 ++ l2).find? p = l2.find? p := by
  induction l1 with
  | nil => rfl
  | cons x xs ih =>
    rw [List.find?_cons] at h
    rw [List.cons_append, List.find?_cons]
    cases hx : p x
    · rw [hx] at h
      exact ih h
    · rw [hx] at h
      cases h

theorem zipFileGet_set_ne (z : Archive) (nm : Units) (d : Bytes) (nm' : Units)
    (hne : nm' ≠ nm) : zipFileGet (zipFileSet z nm d) nm' = zipFileGet z nm' := by
  unfold zipFileSet
  split
  · rw [zipFileGet, find?_map_rel
      (fun e : ZEntry => if e.name = nm then (⟨nm, false, d⟩ : ZEntry) else e)
      (fun e : ZEntry => e.name = nm') (fun e : ZEntry => e.name = nm')
      (fun e => by
        by_cases he : e.name = nm
        · simp [he, fun hh : nm = nm' => hne hh.symm]
        · simp [he])]
    rw [zipFileGet]
    cases hf : z.find? (fun e => e.name = nm') with
    | none => rfl
    | some e =>
      have hen : e.name = nm' := by simpa using List.find?_some hf
      have hinner : (if e.name = nm then (⟨nm, false, d⟩ : ZEntry) else e) = e :=
        if_neg (fun hh => hne (by rw [← hen, hh]))
      simp [hinner]
  · rename_i hnone
    rw [zipFileGet, zipFileGet]
    rw [Option.not_isSome_iff_eq_none] at hnone
    by_cases hz : (z.find? (fun e => e.name = nm')).isSome
    · obtain ⟨e, he⟩ := Option.isSome_iff_exists.mp hz
      rw [he]
      rw [List.find?_append]
      rw [he]
      rfl
    · rw [Option.not_isSome_iff_eq_none] at hz
      rw [find?_append_none _ hz, hz, List.find?_cons]
      have : (ZEntry.mk nm false d).name = nm' ↔ False := by
        constructor
        · intro hh
          exact hne (by simpa using hh.symm)
        · exact False.elim
      simp only [List.find?_nil]
      cases hd : decide ((ZEntry.mk nm false d).name = nm')
      · rfl
      · exact absurd (of_decide_eq_true hd) (fun hh => hne (by simpa using hh.symm))

theorem zipFileGet_set_self (z : Archive) (nm : Units) (d : Bytes) :
    zipFileGet (zipFileSet z nm d) nm = some ⟨nm, false, d⟩ := by
  unfold zipFileSet
  split
  · rename_i hsome
    rw [zipFileGet, find?_map_rel
      (fun e : ZEntry => if e.name = nm then (⟨nm, false, d⟩ : ZEntry) else e)
      (fun e : ZEntry => e.name = nm) (fun e : ZEntry => e.name = nm)
      (fun e => by
        by_cases he : e.name = nm
        · simp [he]
        · simp [he])]
    obtain ⟨e, he⟩ := Option.isSome_iff_exists.mp hsome
    rw [he]
    have hen : e.name = nm := by simpa using List.find?_some he
    simp [hen]
  · rename_i hnone
    rw [Option.not_isSome_iff_eq_none] at hnone
    rw [zipFileGet, find?_append_none _ hnone, List.find?_cons]
    simp

theorem mem_zipFileSet (z : Archive) (nm : Units) (d : Bytes) :
    ∀ e' ∈ zipFileSet z nm d, e' ∈ z ∨ e' = ⟨nm, false, d⟩ := by
  intro e' he'
  unfold zipFileSet at he'
  split at he'
  · rw [List.mem_map] at he'
    obtain ⟨e, he, hfe⟩ := he'
    by_cases hen : e.name = nm
    · rw [if_pos hen] at hfe
      exact Or.inr hfe.symm
    · rw [if_neg hen] at hfe
      exact Or.inl (hfe ▸ he)
  · rcases List.mem_append.mp he' with h | h
    · exact Or.inl h
    · exact Or.inr (List.mem_singleton.mp h)

/-- The invariant of the split-entry insertion fold: `base` lookups survive
and every entry is from `base` or is an eligible (non-directory,
non-`META-INF/`) inserted entry. -/
theorem insertFold_inv (base m0 : Archive)
    (hb : ∀ nm e, zipFileGet base nm = some e → zipFileGet m0 nm = some e) :
    ∀ (xs : List ZEntry) (mz : Archive),
      (∀ nm e, zipFileGet base nm = some e → zipFileGet mz nm = some e) →
      (∀ e' ∈ mz, e' ∈ base ∨
        (e'.dir = false ∧ (u "META-INF/").isPrefixOf e'.name = false)) →
      (∀ x ∈ xs, x.dir = false ∧ (u "META-INF/").isPrefixOf x.name = false ∧
        zipFileGet m0 x.name = none) →
      (∀ nm e, zipFileGet base nm = some e →
        zipFileGet (xs.foldl (fun z e => zipFileSet z e.name e.data) mz) nm = some e) ∧
      (∀ e' ∈ xs.foldl (fun z e => zipFileSet z e.name e.data) mz,
        e' ∈ base ∨ (e'.dir = false ∧ (u "META-INF/").isPrefixOf e'.name = false)) := by
  intro xs
  induction xs with
  | nil => intro mz h1 h2 _; exact ⟨h1, h2⟩
  | cons x xs ih =>
    intro mz h1 h2 hxs
    obtain ⟨hxd, hxm, hx0⟩ := hxs x (List.mem_cons_self x xs)
    rw [List.foldl_cons]
    refine ih (zipFileSet mz x.name x.data) ?_ ?_
      (fun y hy => hxs y (List.mem_cons_of_mem x hy))
    · intro nm e he
      by_cases hnm : nm = x.name
      · exfalso
        rw [hnm] at he
        have hcontra := hb x.name e he
        rw [hx0] at hcontra
        exact Option.noConfusion hcontra
      · rw [zipFileGet_set_ne mz x.name x.data nm hnm]
        exact h1 nm e he
    · intro e' he'
      rcases mem_zipFileSet mz x.name x.data e' he' with h | h
      · exact h2 e' h
      · subst h
        exact Or.inr ⟨rfl, hxm⟩

/-- `mergeSplitEntries` preserves the base-wins invariant. -/
theorem mergeSplitEntries_inv (base mz split : Archive)
    (h1 : ∀ nm e, zipFileGet base nm = some e → zipFileGet mz nm = some e)
    (h2 : ∀ e' ∈ mz, e' ∈ base ∨
      (e'.dir = false ∧ (u "META-INF/").isPrefixOf e'.name = false)) :
    (∀ nm e, zipFileGet base nm = some e →
      zipFileGet (mergeSplitEntries mz split) nm = some e) ∧
    (∀ e' ∈ mergeSplitEntries mz split, e' ∈ base ∨
      (e'.dir = false ∧ (u "META-INF/").isPrefixOf e'.name = false)) := by
  rw [mergeSplitEntries]
  refine insertFold_inv base mz h1 _ mz h1 h2 ?_
  intro x hx
  have hmem := List.mem_filter.mp hx
  have hcond := hmem.2
  rw [Bool.and_eq_true, Bool.and_eq_true] at hcond
  refine ⟨?_, ?_, ?_⟩
  · simpa using hcond.1.1
  · simpa using hcond.1.2
  · simpa [Option.isNone_iff_eq_none] using hcond.2

theorem pm_pure_run {α : Type} (a : α) (s : List LogEntry) :
    (pure a : PM α) s = (.ok a, s) := rfl

theorem pm_pure_ok {α : Type} {a b : α} {s s' : List LogEntry}
    (h : (pure a : PM α) s = (.ok b, s')) : a = b := by
  rw [pm_pure_run] at h
  have h1 := congrArg Prod.fst h
  simpa using h1

/-- Destructuring a successful `PM` bind. -/
theorem pm_bind_ok {α β : Type} {m : PM α} {f : α → PM β} {s s' : List LogEntry} {b : β}
    (h : (m >>= f) s = (.ok b, s')) :
    ∃ a s1, m s = (.ok a, s1) ∧ f a s1 = (.ok b, s') := by
  have hdef : (m >>= f) s =
      (match m s with
       | (.ok a, s1) => f a s1
       | (.error e, s1) => (.error e, s1)) := rfl
  rw [hdef] at h
  rcases hm : m s with ⟨res, s1⟩
  rw [hm] at h
  cases res with
  | ok a => exact ⟨a, s1, rfl, h⟩
  | error e =>
    exact absurd (congrArg Prod.fst h) (fun hh => Except.noConfusion hh)

/-- The merge loop preserves the base-wins invariant. -/
theorem mergeLoop_inv (onLog : LogEntry → Except JsErr Unit) (bz : Bundle)
    (basePath : Units) (base : Archive) :
    ∀ (fs : List (BundleEntry × Bool)) (mz : Archive) (s s' : List LogEntry)
      (mzf : Archive),
      (fs.foldlM (mergeStep onLog bz basePath) mz) s = (.ok mzf, s') →
      (∀ nm e, zipFileGet base nm = some e → zipFileGet mz nm = some e) →
      (∀ e' ∈ mz, e' ∈ base ∨
        (e'.dir = false ∧ (u "META-INF/").isPrefixOf e'.name = false)) →
      (∀ nm e, zipFileGet base nm = some e → zipFileGet mzf nm = some e) ∧
      (∀ e' ∈ mzf, e' ∈ base ∨
        (e'.dir = false ∧ (u "META-INF/").isPrefixOf e'.name = false)) := by
  intro fs
  induction fs with
  | nil =>
    intro mz s s' mzf h h1 h2
    rw [List.foldlM_nil] at h
    obtain rfl := pm_pure_ok h
    exact ⟨h1, h2⟩
  | cons f fs ih =>
    intro mz s s' mzf h h1 h2
    rw [List.foldlM_cons] at h
    obtain ⟨mz1, s1, hstep, hrest⟩ := pm_bind_ok h
    have hinv : (∀ nm e, zipFileGet base nm = some e → zipFileGet mz1 nm = some e) ∧
        (∀ e' ∈ mz1, e' ∈ base ∨
          (e'.dir = false ∧ (u "META-INF/").isPrefixOf e'.name = false)) := by
      rw [mergeStep] at hstep
      by_cases hname : f.1.name = basePath
      · rw [if_pos hname] at hstep
        obtain rfl := pm_pure_ok hstep
        exact ⟨h1, h2⟩
      · rw [if_neg hname] at hstep
        obtain ⟨_, s2, _, hstep2⟩ := pm_bind_ok hstep
        obtain ⟨split, s3, _, hstep3⟩ := pm_bind_ok hstep2
        obtain ⟨_, s4, _, hstep4⟩ := pm_bind_ok hstep3
        obtain rfl := pm_pure_ok hstep4
        exact mergeSplitEntries_inv base mz split h1 h2
    exact ih mz1 s1 s' mzf hrest hinv.1 hinv.2

/-- C5: whenever `processApksBundle` returns a merged archive, (base wins)
every non-directory entry of the selected base archive is looked up
unchanged in the merged archive, and every entry of the merged archive is
either an entry of the base or a non-directory entry whose name does not
start with `META-INF/` — so `META-INF/` split entries and split directory
entries are never inserted. -/
theorem claimC5_base_wins (onLog : LogEntry → Except JsErr Unit) (bz : Bundle)
    (s0 s' : List LogEntry) (mz : Archive)
    (h : processApksBundle onLog (.ok bz) s0 = (.ok mz, s')) :
    (∀ nm e, zipFileGet (bundleBaseArchive bz) nm = some e →
      zipFileGet mz nm = some e) ∧
    (∀ e' ∈ mz, e' ∈ bundleBaseArchive bz ∨
      (e'.dir = false ∧ (u "META-INF/").isPrefixOf e'.name = false)) := by
  rw [processApksBundle] at h
  obtain ⟨bz', s1, hbz, h2⟩ := pm_bind_ok h
  have hbz' : bz' = bz := by
    rw [pliftE] at hbz
    simpa using (congrArg Prod.fst hbz).symm
  subst hbz'
  by_cases hlen : (enumerateApkFiles bz').length = 0
  · rw [if_pos hlen, pthrow] at h2
    exact absurd (congrArg Prod.fst h2) (fun hh => Except.noConfusion hh)
  · rw [if_neg hlen] at h2
    obtain ⟨_, s2, _, h3⟩ := pm_bind_ok h2
    obtain ⟨_, s3, _, h4⟩ := pm_bind_ok h3
    obtain ⟨baseA, s4, hbase, h5⟩ := pm_bind_ok h4
    have hbaseE : (match bz'.find? (fun f =>
        decide (f.name = selectBasePath (enumerateApkFiles bz')) && !f.dir) with
        | some f => f.content
        | none => Except.error (u "TypeError")) = Except.ok baseA := by
      rw [pliftE] at hbase
      exact congrArg Prod.fst hbase
    have hbarch : bundleBaseArchive bz' = baseA := by
      unfold bundleBaseArchive
      rcases hfind : bz'.find? (fun f =>
          decide (f.name = selectBasePath (enumerateApkFiles bz')) && !f.dir) with _ | f
      · rw [hfind] at hbaseE
        dsimp only at hbaseE
        exact absurd hbaseE (fun hh => Except.noConfusion hh)
      · rw [hfind] at hbaseE ⊢
        dsimp only at hbaseE ⊢
        rw [hbaseE]
    obtain ⟨_, s5, _, h6⟩ := pm_bind_ok h5
    obtain ⟨mzf, s6, hfold, h7⟩ := pm_bind_ok h6
    obtain ⟨_, s7, _, h8⟩ := pm_bind_ok h7
    obtain rfl := pm_pure_ok h8
    rw [hbarch]
    exact mergeLoop_inv onLog bz' (selectBasePath (enumerateApkFiles bz')) baseA
      (enumerateApkFiles bz') baseA s5 s6 mzf hfold
      (fun nm e he => he) (fun e' he' => Or.inl he')

/-- The bundle of the spec's merge-precedence scenario: a split with a
colliding `res/x`, a fresh `res/y`, a `META-INF/` entry and a directory;
a base with `res/x`. -/
def bundleC5 : Bundle := [
  ⟨u "split.apk", false, .ok [⟨u "res/x", false, [66]⟩, ⟨u "res/y", false, [67]⟩,
    ⟨u "META-INF/OLD.SF", false, [9]⟩, ⟨u "sub/", true, []⟩]⟩,
  ⟨u "base.apk", false, .ok [⟨u "res/x", false, [65]⟩]⟩]

/-- The merged archive of `bundleC5`. -/
def mzC5 : Archive :=
  ((processApksBundle okLog (.ok bundleC5) []).1).toOption.getD []

/-- Witness for C5 at `bundleC5`: the merge succeeds, base wins on `res/x`
(bytes `A` = 65), `res/y` is taken from the split, and neither
`META-INF/OLD.SF` nor the directory is inserted. -/
theorem claimC5_witness :
    processApksBundle okLog (.ok bundleC5) [] =
      (.ok mzC5, (processApksBundle okLog (.ok bundleC5) []).2) ∧
    mzC5 = [⟨u "res/x", false, [65]⟩, ⟨u "res/y", false, [67]⟩] ∧
    bundleBaseArchive bundleC5 = [⟨u "res/x", false, [65]⟩] ∧
    (∀ nm e, zipFileGet (bundleBaseArchive bundleC5) nm = some e →
      zipFileGet mzC5 nm = some e) ∧
    (∀ e' ∈ mzC5, e' ∈ bundleBaseArchive bundleC5 ∨
      (e'.dir = false ∧ (u "META-INF/").isPrefixOf e'.name = false)) :=
  ⟨by decide, by decide, by decide,
   (claimC5_base_wins okLog bundleC5 []
      ((processApksBundle okLog (.ok bundleC5) []).2) mzC5 (by decide)).1,
   (claimC5_base_wins okLog bundleC5 []
      ((processApksBundle okLog (.ok bundleC5) []).2) mzC5 (by decide)).2⟩

end ApkForge
